import Mathlib

/-!
# Verification of the polygon geometry engine (`src/polygon.rs`)

Shallow embedding of the polygon editor's geometry core.  Coordinates are
modelled with exact rational arithmetic (`ℚ`) in place of `f32`; every `f32`
value is a rational, and the geometric claims under scrutiny are about the
exact-arithmetic behaviour of the algorithms.

The per-vertex derived fields (`normal`, `prev_normal`, `offset_vec`,
`direction`) are recomputed in the source by `update_normals`, which divides by
floating-point square roots; in this embedding the stored `offset_vec` of each
vertex is treated as opaque stored data (an arbitrary rational vector), and
every theorem quantifies over it.  Rendering-only state (vertex buffers,
circles, sprites, labels, colors) is omitted: no claim observes it.

The `geo` crate's `line_intersection` (an external dependency) is modelled on
exact coordinates following its documented and implemented semantics
(`None` / `SinglePoint {is_proper}` / `Collinear`), including the JTS-style
endpoint selection for improper intersections and the bounding-rectangle based
classification of collinear overlaps.
-/

namespace PolygonEditor

/-- 2D vector (models `sf::Vector2f` with exact coordinates). -/
structure Vec2 where
  x : ℚ
  y : ℚ
deriving DecidableEq, Repr, Inhabited

instance : Add Vec2 := ⟨fun a b => ⟨a.x + b.x, a.y + b.y⟩⟩

instance : Sub Vec2 := ⟨fun a b => ⟨a.x - b.x, a.y - b.y⟩⟩

instance : Neg Vec2 := ⟨fun a => ⟨-a.x, -a.y⟩⟩

/-- `Vector2f * f32` componentwise scaling. -/
def Vec2.scale (v : Vec2) (c : ℚ) : Vec2 := ⟨v.x * c, v.y * c⟩

@[simp] theorem Vec2.add_x (a b : Vec2) : (a + b).x = a.x + b.x := rfl

@[simp] theorem Vec2.add_y (a b : Vec2) : (a + b).y = a.y + b.y := rfl

@[simp] theorem Vec2.sub_x (a b : Vec2) : (a - b).x = a.x - b.x := rfl

@[simp] theorem Vec2.sub_y (a b : Vec2) : (a - b).y = a.y - b.y := rfl

/-- `my_math::distance2`: squared euclidean distance. -/
def distance2 (p q : Vec2) : ℚ := (p.x - q.x) * (p.x - q.x) + (p.y - q.y) * (p.y - q.y)

/-- `my_math::cross2`: 2D cross product. -/
def cross2 (a b : Vec2) : ℚ := a.x * b.y - a.y * b.x

/-- `my_math::is_right_turn(p0, p1, p2)`: `cross2(p1 - p0, p2 - p1) < 0`. -/
def isRightTurn (p0 p1 p2 : Vec2) : Bool := decide (cross2 (p1 - p0) (p2 - p1) < 0)

/-- `EdgeConstraint` from `src/polygon.rs`. -/
inductive EdgeConstraint where
  | none
  | horizontal
  | vertical
deriving DecidableEq, Repr, Inhabited

/-- A polygon vertex (`Point` in `src/polygon.rs`).  The rendering circles are
omitted; `offsetVec` is the stored derived miter vector, kept as opaque data
(see the module docstring). -/
structure Point where
  pos : Vec2
  isSelected : Bool
  edgeConstraint : EdgeConstraint
  offsetVec : Vec2
deriving DecidableEq, Repr, Inhabited

/-- `Point::new`: fresh vertex at `pos`, unselected, unconstrained, with
zeroed derived fields. -/
def Point.new (pos : Vec2) : Point := ⟨pos, false, EdgeConstraint.none, ⟨0, 0⟩⟩

/-- `Polygon`: the ordered cyclic vertex list (rendering state omitted). -/
structure Polygon where
  points : List Point
deriving DecidableEq, Repr, Inhabited

namespace Polygon

/-- `Polygon::points_count`. -/
def pointsCount (P : Polygon) : Nat := P.points.length

/-- `Polygon::fix_index`: cyclic index resolution `id.rem_euclid(count)`.
Total version; the source panics when `count = 0` (see `fixIndexChecked`). -/
def fixIndex (P : Polygon) (id : ℤ) : Nat := (id % (P.pointsCount : ℤ)).toNat

/-- `Polygon::fix_index`, with the `rem_euclid` panic on a zero modulus (empty
polygon) modelled as `Option.none`. -/
def fixIndexChecked (P : Polygon) (id : ℤ) : Option Nat :=
  if P.pointsCount = 0 then Option.none else some (P.fixIndex id)

/-- `Polygon::get_point_pos` (cyclic). -/
def getPointPos (P : Polygon) (id : ℤ) : Vec2 := (P.points.getD (P.fixIndex id) default).pos

/-- `Polygon::get_offset_vec` (cyclic). -/
def getOffsetVec (P : Polygon) (id : ℤ) : Vec2 := (P.points.getD (P.fixIndex id) default).offsetVec

/-- `Polygon::get_edge_constraint` (cyclic). -/
def getEdgeConstraint (P : Polygon) (id : ℤ) : EdgeConstraint :=
  (P.points.getD (P.fixIndex id) default).edgeConstraint

/-- `Polygon::set_edge_contsraint` (sic) — sets the constraint tag stored on
vertex `fix_index(id)`. -/
def setEdgeContsraint (P : Polygon) (id : ℤ) (c : EdgeConstraint) : Polygon :=
  ⟨P.points.set (P.fixIndex id)
    { P.points.getD (P.fixIndex id) default with edgeConstraint := c }⟩

/-- `Polygon::update_point_pos` / `update_vertex`: moves vertex
`fix_index(index)` to `point_pos` (vertex-buffer and derived-field updates are
rendering state / opaque data, see module docstring). -/
def updatePointPos (P : Polygon) (pointPos : Vec2) (index : ℤ) : Polygon :=
  ⟨P.points.set (P.fixIndex index)
    { P.points.getD (P.fixIndex index) default with pos := pointPos }⟩

/-- `Polygon::insert_point_with_pos`: inserts a fresh `Point::new` at
`fix_index(id)`. -/
def insertPointWithPos (P : Polygon) (id : ℤ) (pointPos : Vec2) : Polygon :=
  ⟨P.points.insertIdx (P.fixIndex id) (Point.new pointPos)⟩

/-- `Polygon::remove_point`: removes the vertex at `fix_index(id)`. -/
def removePoint (P : Polygon) (id : ℤ) : Polygon :=
  ⟨P.points.eraseIdx (P.fixIndex id)⟩

/-- `Polygon::is_proper`: at least 3 vertices. -/
def isProper (P : Polygon) : Bool := if P.points.length < 3 then false else true

/-- `Polygon::create`: builds a polygon from raw positions via `Point::new`. -/
def create (pts : List Vec2) : Polygon := ⟨pts.map Point.new⟩

end Polygon

/-! ## Model of `geo::algorithm::line_intersection::line_intersection`

Segments are given by their endpoints.  `collinear` abstracts
`LineIntersection::Collinear` (the overlap segment payload is not observed by
any caller in the repository, which only matches on the variant). -/

inductive LineIntersectionResult where
  | noIntersection
  | singlePoint (pt : Vec2) (proper : Bool)
  | collinear
deriving DecidableEq, Repr

/-- Inclusive bounding-rectangle membership (`Rect::contains` on the bounding
rect of the segment `a`–`b`). -/
def inBoundingRect (p a b : Vec2) : Bool :=
  decide (min a.x b.x ≤ p.x) && decide (p.x ≤ max a.x b.x) &&
  decide (min a.y b.y ≤ p.y) && decide (p.y ≤ max a.y b.y)

/-- Bounding rectangles of segments `p0`–`p1` and `q0`–`q1` intersect
(inclusive). -/
def boundingRectsIntersect (p0 p1 q0 q1 : Vec2) : Bool :=
  decide (min p0.x p1.x ≤ max q0.x q1.x) && decide (min q0.x q1.x ≤ max p0.x p1.x) &&
  decide (min p0.y p1.y ≤ max q0.y q1.y) && decide (min q0.y q1.y ≤ max p0.y p1.y)

/-- Intersection point of the two supporting lines (exact arithmetic); only
used in the proper, non-parallel case. -/
def properIntersectionPoint (p0 p1 q0 q1 : Vec2) : Vec2 :=
  let denom := cross2 (p1 - p0) (q1 - q0)
  let t := cross2 (q0 - p0) (q1 - q0) / denom
  p0 + (p1 - p0).scale t

/-- `geo`'s `collinear_intersection`: classification of two collinear segments
by bounding-rectangle containment of each other's endpoints (JTS
`computeCollinearIntersection`). -/
def collinearIntersection (p0 p1 q0 q1 : Vec2) : LineIntersectionResult :=
  let c1 := inBoundingRect q0 p0 p1
  let c2 := inBoundingRect q1 p0 p1
  let c3 := inBoundingRect p0 q0 q1
  let c4 := inBoundingRect p1 q0 q1
  if c1 && c2 then LineIntersectionResult.collinear
  else if c3 && c4 then LineIntersectionResult.collinear
  else if c1 && c3 && !c2 && !c4 && decide (q0 = p0) then
    LineIntersectionResult.singlePoint q0 false
  else if c1 && c3 then LineIntersectionResult.collinear
  else if c1 && c4 && !c2 && !c3 && decide (q0 = p1) then
    LineIntersectionResult.singlePoint q0 false
  else if c1 && c4 then LineIntersectionResult.collinear
  else if c2 && c3 && !c1 && !c4 && decide (q1 = p0) then
    LineIntersectionResult.singlePoint q1 false
  else if c2 && c3 then LineIntersectionResult.collinear
  else if c2 && c4 && !c1 && !c3 && decide (q1 = p1) then
    LineIntersectionResult.singlePoint q1 false
  else if c2 && c4 then LineIntersectionResult.collinear
  else LineIntersectionResult.noIntersection

/-- Model of `geo::line_intersection(p, q)` on segments `p = p0→p1`,
`q = q0→q1`: `None` when disjoint; a single point, flagged proper exactly when
it is interior to both segments; `Collinear` for overlapping collinear
segments.  Orientation tests use the exact cross product (the robust kernel is
exact on exact inputs). -/
def lineIntersection (p0 p1 q0 q1 : Vec2) : LineIntersectionResult :=
  if !boundingRectsIntersect p0 p1 q0 q1 then LineIntersectionResult.noIntersection
  else
    let pq1 := cross2 (p1 - p0) (q0 - p0)
    let pq2 := cross2 (p1 - p0) (q1 - p0)
    if (decide (0 < pq1) && decide (0 < pq2)) || (decide (pq1 < 0) && decide (pq2 < 0)) then
      LineIntersectionResult.noIntersection
    else
      let qp1 := cross2 (q1 - q0) (p0 - q0)
      let qp2 := cross2 (q1 - q0) (p1 - q0)
      if (decide (0 < qp1) && decide (0 < qp2)) || (decide (qp1 < 0) && decide (qp2 < 0)) then
        LineIntersectionResult.noIntersection
      else if pq1 = 0 && pq2 = 0 && qp1 = 0 && qp2 = 0 then
        collinearIntersection p0 p1 q0 q1
      else if pq1 = 0 || pq2 = 0 || qp1 = 0 || qp2 = 0 then
        let pt :=
          if p0 = q0 || p0 = q1 then p0
          else if p1 = q0 || p1 = q1 then p1
          else if pq1 = 0 then q0
          else if pq2 = 0 then q1
          else if qp1 = 0 then p0
          else p1
        LineIntersectionResult.singlePoint pt false
      else
        LineIntersectionResult.singlePoint (properIntersectionPoint p0 p1 q0 q1) true

/-! ## Self-Intersection Analyzer (`is_self_crossing`, `get_self_crossing_edges`)

Both methods scan, for each `i` in `0..count`, the partners
`j` in `(i+2)..end` where `end = count`, lowered to `count - 1` when `i = 0`
(this skips the two neighbours of edge `i` and the wrap pair `(0, count-1)`). -/

/-- The ordered list of `(i, j)` pairs scanned by the double loop of
`is_self_crossing` / `get_self_crossing_edges` for a polygon with `n`
vertices. -/
def scanPairs (n : Nat) : List (Nat × Nat) :=
  (List.range n).flatMap fun i =>
    (List.range' (i + 2) ((if i = 0 then n - 1 else n) - (i + 2))).map fun j => (i, j)

/-- The segment of edge `k`: from vertex `k` to vertex `k+1` (cyclic). -/
def Polygon.edgeSeg (P : Polygon) (k : Nat) : Vec2 × Vec2 :=
  (P.getPointPos (k : ℤ), P.getPointPos ((k : ℤ) + 1))

/-- The `geo` intersection result for the pair of edges `(i, j)`. -/
def Polygon.edgeIntersection (P : Polygon) (i j : Nat) : LineIntersectionResult :=
  lineIntersection (P.edgeSeg i).1 (P.edgeSeg i).2 (P.edgeSeg j).1 (P.edgeSeg j).2

/-- `Polygon::is_self_crossing`: true as soon as any scanned pair of edges
intersects in any fashion (`result.is_some()` — no properness filter). -/
def Polygon.isSelfCrossing (P : Polygon) : Bool :=
  (scanPairs P.pointsCount).any fun ij =>
    decide (P.edgeIntersection ij.1 ij.2 ≠ LineIntersectionResult.noIntersection)

/-- The crossing map's value type: all recorded `(partner edge, intersection
point)` pairs of one edge. -/
abbrev CrossVal := List (Nat × Vec2)

/-- The crossing map: `HashMap<usize, Vec<(usize, Vector2f)>>` modelled as an
association list (the map is only read through keyed lookup and emptiness, so
hash iteration order is irrelevant). -/
abbrev CrossMap := List (Nat × CrossVal)

/-- Keyed lookup, `HashMap::get`. -/
def alGet (m : CrossMap) (k : Nat) : Option CrossVal :=
  match m with
  | [] => Option.none
  | (k', v) :: rest => if k' = k then some v else alGet rest k

/-- `map.entry(k).or_insert(Vec::new()).push(e)`. -/
def alPush (m : CrossMap) (k : Nat) (e : Nat × Vec2) : CrossMap :=
  match m with
  | [] => [(k, [e])]
  | (k', v) :: rest =>
    if k' = k then (k', v ++ [e]) :: rest else (k', v) :: alPush rest k e

/-- How one scanned pair updates the crossing map, as a function of the
intersection result: a proper single-point intersection is recorded
symmetrically under both edge ids, everything else is ignored. -/
def crossingStepAux (m : CrossMap) (i j : Nat) : LineIntersectionResult → CrossMap
  | LineIntersectionResult.singlePoint pt true => alPush (alPush m i (j, pt)) j (i, pt)
  | _ => m

/-- One step of the double loop of `get_self_crossing_edges`. -/
def Polygon.crossingStep (P : Polygon) (m : CrossMap) (ij : Nat × Nat) : CrossMap :=
  crossingStepAux m ij.1 ij.2 (P.edgeIntersection ij.1 ij.2)

/-- `Polygon::get_self_crossing_edges` (the live version in
`src/polygon.rs`): fold of `crossingStep` over the scanned pairs. -/
def Polygon.getSelfCrossingEdges (P : Polygon) : CrossMap :=
  (scanPairs P.pointsCount).foldl P.crossingStep []

/-- The recorded crossings of edge `k` (`[]` when the key is absent). -/
def crossingsAt (m : CrossMap) (k : Nat) : CrossVal := (alGet m k).getD []

/-- The `(partner, point)` entry that a scanned pair `(i, j)` contributes to
edge `k`, if any, as a function of the intersection result. -/
def properEntryAux (i j k : Nat) : LineIntersectionResult → Option (Nat × Vec2)
  | LineIntersectionResult.singlePoint pt true =>
      if i = k then some (j, pt)
      else if j = k then some (i, pt)
      else Option.none
  | _ => Option.none

/-- Specification-side description of what the live map stores at key `k`:
every proper intersection of edge `k` with a scanned partner, in scan order,
as `(partner, point)`. -/
def Polygon.properCrossingsAt (P : Polygon) (k : Nat) : CrossVal :=
  (scanPairs P.pointsCount).filterMap fun ij =>
    properEntryAux ij.1 ij.2 k (P.edgeIntersection ij.1 ij.2)

/-- Claim-side predicate: some scanned pair of edges has a *proper*
single-point intersection. -/
def Polygon.hasProperSelfCrossing (P : Polygon) : Bool :=
  (scanPairs P.pointsCount).any fun ij =>
    match P.edgeIntersection ij.1 ij.2 with
    | LineIntersectionResult.singlePoint _ true => true
    | _ => false

/-! ## Orientation manager (`assert_ccw`) -/

/-- One summand of the signed shoelace sum of `assert_ccw`:
`(pos(i+1).x - pos(i).x) * (pos(i+1).y + pos(i).y)`. -/
def shoelaceTerm (a b : Vec2) : ℚ := (b.x - a.x) * (b.y + a.y)

/-- The signed shoelace sum accumulated by `assert_ccw` over
`i` in `0..count` with cyclic access. -/
def Polygon.shoelace (P : Polygon) : ℚ :=
  ((List.range P.pointsCount).map fun (i : Nat) =>
    shoelaceTerm (P.getPointPos (i : ℤ)) (P.getPointPos ((i : ℤ) + 1))).sum

/-- The reversal branch of `assert_ccw`: reverse the vertex list, then remap
each constraint tag: after taking a snapshot `cpy` of the reversed list's
tags, the loop performs `constraint[i] := cpy[(i+1) mod n]` for every `i`
(the intermediate `set(i, None)` is immediately overwritten). -/
def Polygon.reverseWithRemap (P : Polygon) : Polygon :=
  let rev := P.points.reverse
  let cpy : List EdgeConstraint := rev.map fun p => p.edgeConstraint
  ⟨(List.range rev.length).map fun i =>
    { rev.getD i default with edgeConstraint := cpy.getD ((i + 1) % rev.length) default }⟩

/-- `Polygon::assert_ccw`.  The leading `assert_eq!(is_proper(), true)` panic
on an improper polygon is modelled as `Option.none`.  Returns the updated
polygon and whether a reversal occurred. -/
def Polygon.assertCcw (P : Polygon) : Option (Polygon × Bool) :=
  if P.isProper then
    if P.shoelace ≤ 0 then some (P.reverseWithRemap, true) else some (P, false)
  else Option.none

/-! ## `PolygonObject` and the Offset Engine (`update_offset`) -/

/-- `PolygonObject` (hover/insert rendering state omitted; `selection` is the
`HashSet<usize>` modelled as a list of ids). -/
structure PolygonObject where
  polygon : Polygon
  selection : List Nat
  showOffset : Bool
  naiveOffset : Bool
  offsetSize : ℚ
  offsetPolygon : Polygon
  canInsert : Bool
deriving DecidableEq, Repr, Inhabited

/-- The naive offset built at the top of `update_offset`: a clone of the base
polygon in which, for each `i` in `0..count`, vertex `i` is moved to
`base.pos(i) + base.offset_vec(i) * offset_size` (positions and vectors are
always read from the untouched base polygon). -/
def PolygonObject.naiveOffsetPoly (o : PolygonObject) : Polygon :=
  (List.range o.polygon.pointsCount).foldl
    (fun (Q : Polygon) (i : Nat) =>
      Q.updatePointPos
        (o.polygon.getPointPos (i : ℤ) + (o.polygon.getOffsetVec (i : ℤ)).scale o.offsetSize)
        (i : ℤ))
    o.polygon

/-- The start-vertex search of `update_offset`: first index of strictly
minimal `x` among the naive offset's vertices (the `visited` array it consults
is never written, so the `continue` branch is dead). -/
def startVertex (naive : Polygon) : Nat :=
  (List.range naive.pointsCount).foldl
    (fun (s idx : Nat) =>
      if (naive.getPointPos (idx : ℤ)).x < (naive.getPointPos (s : ℤ)).x then idx else s)
    0

/-- State of the outer repair walk: current vertex index `i` and the boundary
points / vertex ids pushed so far. -/
structure WalkState where
  i : Nat
  pts : List Vec2
  ids : List Nat
deriving DecidableEq, Repr, Inhabited

/-- First selection on the current edge: the crossing closest to `p` by
squared distance (`min_dist` starts at infinity; strict `<`, so the first
minimum wins).  The source `unwrap`s a nonempty vector; the `(0, (0,0))`
fallback is unreachable because the map only stores nonempty vectors. -/
def closestCrossing (cs : CrossVal) (p : Vec2) : Nat × Vec2 :=
  let acc := cs.foldl
    (fun (acc : Option (ℚ × (Nat × Vec2))) c =>
      let d := distance2 p c.2
      match acc with
      | Option.none => some (d, c)
      | some a => if d < a.1 then some (d, c) else acc)
    Option.none
  (acc.map fun a => a.2).getD (0, ⟨0, 0⟩)

/-- Candidate selection inside the chain-following loop: among the crossings
of the current line, skip those that are not a right turn after the last two
boundary points or whose partner is the line just arrived from; take the
closest remaining one (strict `<`, first minimum wins). -/
def chainCandidate (cs : CrossVal) (lastP secondLastP : Vec2) (prevLine : Nat) : Option (Nat × Vec2) :=
  let acc := cs.foldl
    (fun (acc : Option (ℚ × (Nat × Vec2))) c =>
      if !isRightTurn lastP secondLastP c.2 || prevLine == c.1 then acc
      else
        let d := distance2 lastP c.2
        match acc with
        | Option.none => some (d, c)
        | some a => if d < a.1 then some (d, c) else acc)
    Option.none
  acc.map fun a => a.2

/-- The chain-following `while new_line_crossings.is_some()` loop.  The source
loop has **no** iteration bound of its own; it is modelled with an explicit
`fuel` parameter (all claims proved below hold for every fuel value). -/
def innerChain (cr : CrossMap) : Nat → List Vec2 → Nat × Vec2 → Nat → List Vec2 × (Nat × Vec2)
  | 0, pts, closest, _ => (pts, closest)
  | fuel + 1, pts, closest, prevLine =>
    match alGet cr closest.1 with
    | Option.none => (pts, closest)
    | some cands =>
      match chainCandidate cands (pts.getD (pts.length - 1) default)
          (pts.getD (pts.length - 2) default) prevLine with
      | Option.none => (pts, closest)
      | some c => innerChain cr fuel (pts ++ [c.2]) c closest.1

/-- One iteration of the main repair loop of `update_offset`: push the current
vertex (and its id); if the current edge has recorded crossings, jump to the
closest one, follow the chain, and resume from the edge after the last
crossing's partner (the `is_right_turn` test on the freshly pushed point is
computed as in the source; it compares the last boundary point with itself, so
its `true` branch never fires); otherwise just advance to the next vertex. -/
def loopBody (naive : Polygon) (cr : CrossMap) (innerFuel : Nat) (s : WalkState) : WalkState :=
  let currPoint := naive.getPointPos (s.i : ℤ)
  let pts1 := s.pts ++ [currPoint]
  let ids1 := s.ids ++ [s.i]
  match alGet cr s.i with
  | some cs =>
    let closest0 := closestCrossing cs currPoint
    let pts2 := pts1 ++ [closest0.2]
    let res := innerChain cr innerFuel pts2 closest0 s.i
    let pts3 := res.1
    let closestF := res.2
    let newI :=
      if isRightTurn (pts3.getD (pts3.length - 1) default)
          (pts3.getD (pts3.length - 2) default) closestF.2
      then closestF.1
      else naive.fixIndex ((closestF.1 : ℤ) + 1)
    ⟨newI, pts3, ids1⟩
  | Option.none => ⟨naive.fixIndex ((s.i : ℤ) + 1), pts1, ids1⟩

/-- The main `loop { ... }` of `update_offset` with its two `break`s, as a
recursion on the remaining allowed iterations: after each body execution the
safety counter is checked first (`iterations_inner > count`, i.e. remaining
fuel exhausted), then the return-to-start check `i == start`.  Returns the
final state and the number of body executions. -/
def runLoop (body : WalkState → WalkState) (start : Nat) : Nat → WalkState → WalkState × Nat
  | 0, s => (s, 0)
  | fuel + 1, s =>
    let s' := body s
    if fuel = 0 then (s', 1)
    else if s'.i = start then (s', 1)
    else
      let r := runLoop body start fuel s'
      (r.1, r.2 + 1)

/-- The complete outer-offset repair walk: the main loop run from the start
vertex with safety bound `count + 1`. -/
def offsetWalk (naive : Polygon) (cr : CrossMap) (innerFuel : Nat) (start : Nat) :
    WalkState × Nat :=
  runLoop (loopBody naive cr innerFuel) start (naive.pointsCount + 1) ⟨start, [], []⟩

/-- `PolygonObject::update_offset`.  `innerFuel` bounds the chain-following
loop, which the source leaves unbounded (see `innerChain`). -/
def PolygonObject.updateOffset (o : PolygonObject) (innerFuel : Nat) : PolygonObject :=
  if !o.showOffset || o.polygon.isSelfCrossing then o
  else
    let naive := o.naiveOffsetPoly
    let crossings := naive.getSelfCrossingEdges
    if crossings.isEmpty || o.naiveOffset then { o with offsetPolygon := naive }
    else
      let start := startVertex naive
      let res := offsetWalk naive crossings innerFuel start
      let pts := res.1.pts ++ [naive.getPointPos (start : ℤ)]
      { o with offsetPolygon := Polygon.create pts }

/-- The error value of `PolygonObject::remove_point`
(`io::Error::new(InvalidData, "Not enough points")`). -/
inductive RemoveError where
  | notEnoughPoints
deriving DecidableEq, Repr

/-- `PolygonObject::insert_point`: clears the constraint of edge `id - 1`,
inserts the new vertex at `id`, recomputes the offset, resets `can_insert`. -/
def PolygonObject.insertPoint (o : PolygonObject) (id : ℤ) (pos : Vec2) (innerFuel : Nat) :
    PolygonObject :=
  let P1 := o.polygon.setEdgeContsraint (id - 1) EdgeConstraint.none
  let P2 := P1.insertPointWithPos id pos
  let o2 := ({ o with polygon := P2 }).updateOffset innerFuel
  { o2 with canInsert := false }

/-- `PolygonObject::remove_point`: rejects with the below-minimum error when
`count <= 3`, otherwise clears the constraint of edge `id - 1`, removes the
vertex, drops it from the selection (`id as usize`), and recomputes the
offset. -/
def PolygonObject.removePoint (o : PolygonObject) (id : ℤ) (innerFuel : Nat) :
    PolygonObject × Option RemoveError :=
  if o.polygon.pointsCount ≤ 3 then (o, some RemoveError.notEnoughPoints)
  else
    let P1 := o.polygon.setEdgeContsraint (id - 1) EdgeConstraint.none
    let P2 := P1.removePoint id
    let o1 := { o with polygon := P2,
                       selection := o.selection.filter fun s => decide ((s : ℤ) ≠ id) }
    (o1.updateOffset innerFuel, Option.none)

/-- The accept path of the constraint editor: set the tag of edge
`fix_index(id)` to `new` and snap the edge's endpoints (`Horizontal`: both to
the average `y`; `Vertical`: both to the average `x`; `None`: no snap).  This
is exactly the intermediate state that `draw_line_constraints_egui` tests with
`is_self_crossing`. -/
def Polygon.applyConstraintSnap (P : Polygon) (id : ℤ) (new : EdgeConstraint) : Polygon :=
  let line0 : ℤ := (P.fixIndex id : ℤ)
  let line1 : ℤ := (P.fixIndex (id + 1) : ℤ)
  let p0 := P.getPointPos line0
  let p1 := P.getPointPos line1
  let P1 := P.setEdgeContsraint line0 new
  match new with
  | EdgeConstraint.horizontal =>
    let avg := (p0.y + p1.y) / 2
    (P1.updatePointPos ⟨p0.x, avg⟩ line0).updatePointPos ⟨p1.x, avg⟩ line1
  | EdgeConstraint.vertical =>
    let avg := (p0.x + p1.x) / 2
    (P1.updatePointPos ⟨avg, p0.y⟩ line0).updatePointPos ⟨avg, p1.y⟩ line1
  | EdgeConstraint.none => P1

/-- `PolygonObject::draw_line_constraints_egui`, with the egui `ComboBox`
interaction abstracted into the chosen value `new` (the UI only restricts
which values are offered).  Mirrors the commit logic: no-op when unchanged, a
neighbour-conflict early return (the source reads `line0 - 1` and `line1`),
apply-then-check with a full rollback of both endpoint positions and the tag
when the snapped polygon self-crosses, and an offset recomputation on
success. -/
def PolygonObject.drawLineConstraintsEgui (o : PolygonObject) (id : ℤ) (new : EdgeConstraint)
    (innerFuel : Nat) : PolygonObject :=
  let line0 : ℤ := (o.polygon.fixIndex id : ℤ)
  let line1 : ℤ := (o.polygon.fixIndex (id + 1) : ℤ)
  let p0 := o.polygon.getPointPos line0
  let p1 := o.polygon.getPointPos line1
  let old := o.polygon.getEdgeConstraint line0
  if old = new then o
  else if new ≠ EdgeConstraint.none ∧
      (new = o.polygon.getEdgeConstraint (line0 - 1) ∨ new = o.polygon.getEdgeConstraint line1) then
    o
  else
    let snapped := o.polygon.applyConstraintSnap id new
    if snapped.isSelfCrossing then
      let rb := ((snapped.updatePointPos p0 line0).updatePointPos p1 line1).setEdgeContsraint line0 old
      { o with polygon := rb }
    else
      ({ o with polygon := snapped }).updateOffset innerFuel

/-! ## Basic lemmas about the vertex store -/

theorem Polygon.fixIndex_lt (P : Polygon) (id : ℤ) (h : 0 < P.pointsCount) :
    P.fixIndex id < P.pointsCount := by
  unfold Polygon.fixIndex
  have hn : (0 : ℤ) < (P.pointsCount : ℤ) := by exact_mod_cast h
  have h1 : 0 ≤ id % (P.pointsCount : ℤ) := Int.emod_nonneg id (by omega)
  have h2 : id % (P.pointsCount : ℤ) < (P.pointsCount : ℤ) := Int.emod_lt_of_pos id hn
  omega

theorem Polygon.fixIndex_coe (P : Polygon) (k : Nat) (h : k < P.pointsCount) :
    P.fixIndex (k : ℤ) = k := by
  unfold Polygon.fixIndex
  rw [Int.emod_eq_of_lt (by exact_mod_cast Nat.zero_le k) (by exact_mod_cast h)]
  exact Int.toNat_natCast k

@[simp] theorem Polygon.pointsCount_setEdgeContsraint (P : Polygon) (id : ℤ) (c : EdgeConstraint) :
    (P.setEdgeContsraint id c).pointsCount = P.pointsCount := by
  simp [Polygon.setEdgeContsraint, Polygon.pointsCount]

@[simp] theorem Polygon.pointsCount_updatePointPos (P : Polygon) (v : Vec2) (id : ℤ) :
    (P.updatePointPos v id).pointsCount = P.pointsCount := by
  simp [Polygon.updatePointPos, Polygon.pointsCount]

/-! ## Claim C8: removing from a 3-vertex polygon is rejected unchanged -/

/-- **C8.** For every polygon object with exactly 3 vertices and every cyclic
index, `remove_point` returns the below-minimum error and the whole object —
in particular the vertex sequence, positions and constraint tags — is exactly
what it was before the call. -/
theorem claim_C8 (o : PolygonObject) (id : ℤ) (innerFuel : Nat)
    (h : o.polygon.pointsCount = 3) :
    o.removePoint id innerFuel = (o, some RemoveError.notEnoughPoints) := by
  unfold PolygonObject.removePoint
  rw [if_pos (by omega)]

def trianglePoly : Polygon := Polygon.create [⟨0, 0⟩, ⟨10, 0⟩, ⟨0, 10⟩]

def triangleObj : PolygonObject :=
  ⟨trianglePoly, [], false, false, 0, ⟨[]⟩, false⟩

theorem claim_C8_witness :
    triangleObj.removePoint 1 0 = (triangleObj, some RemoveError.notEnoughPoints) :=
  claim_C8 triangleObj 1 0 (by decide)

/-! ## Claim C9: operations and process termination

The claim asserts that no core operation terminates the process, for *every*
input including improper and empty polygons.  The source contradicts this:
`assert_ccw` begins with `assert_eq!(self.is_proper(), true)`, which panics on
any polygon with fewer than 3 vertices, and `fix_index` calls
`isize::rem_euclid(0)` on an empty polygon, which panics.  Both panics are
modelled as `Option.none`. -/

def twoPointPoly : Polygon := Polygon.create [⟨0, 0⟩, ⟨1, 0⟩]

/-- **C9, counterexample.** `assert_ccw` on a 2-vertex polygon fails its
`is_proper` assertion (a process-terminating panic, modelled as
`Option.none`): the operation does not return an outcome to the caller. -/
theorem claim_C9_counterexample : twoPointPoly.assertCcw = Option.none := rfl

/-- **C9, amended.** Away from the two panicking situations, failures are
reported as distinguishable outcomes: `assert_ccw` returns normally on every
proper polygon, cyclic index resolution succeeds on every non-empty polygon,
and `remove_point` reports the below-minimum case as an error value instead of
terminating. -/
theorem claim_C9 (P : Polygon) (id : ℤ) (o : PolygonObject) (innerFuel : Nat) :
    (P.isProper = true → P.assertCcw.isSome = true) ∧
    (P.points ≠ [] → (P.fixIndexChecked id).isSome = true) ∧
    (o.polygon.pointsCount ≤ 3 →
      o.removePoint id innerFuel = (o, some RemoveError.notEnoughPoints)) := by
  refine ⟨fun h => ?_, fun h => ?_, fun h => ?_⟩
  · unfold Polygon.assertCcw
    rw [h]
    simp only [if_true]
    split <;> rfl
  · unfold Polygon.fixIndexChecked
    rw [if_neg (by simpa [Polygon.pointsCount, List.length_eq_zero] using h)]
    rfl
  · unfold PolygonObject.removePoint
    rw [if_pos h]

theorem claim_C9_witness :
    trianglePoly.assertCcw.isSome = true ∧
    (trianglePoly.fixIndexChecked (-7)).isSome = true ∧
    triangleObj.removePoint 0 0 = (triangleObj, some RemoveError.notEnoughPoints) :=
  ⟨(claim_C9 trianglePoly (-7) triangleObj 0).1 (by decide),
   (claim_C9 trianglePoly (-7) triangleObj 0).2.1 (by decide),
   (claim_C9 trianglePoly 0 triangleObj 0).2.2 (by decide)⟩

/-! ## Claim C4: what `is_self_crossing` actually detects -/

theorem mem_scanPairs (n i j : Nat) :
    (i, j) ∈ scanPairs n ↔
      i < n ∧ i + 2 ≤ j ∧ j < (if i = 0 then n - 1 else n) := by
  unfold scanPairs
  simp only [List.mem_flatMap, List.mem_range, List.mem_map, List.mem_range'_1, Prod.mk.injEq]
  constructor
  · rintro ⟨a, ha, b, ⟨hb1, hb2⟩, he1, he2⟩
    subst he1
    subst he2
    refine ⟨ha, hb1, ?_⟩
    split at hb2 <;> split <;> omega
  · rintro ⟨h1, h2, h3⟩
    refine ⟨i, h1, j, ⟨h2, ?_⟩, rfl, rfl⟩
    split at h3 <;> split <;> omega

/-- Bridging lemma: the `hasProperSelfCrossing` scan is equivalent to the
existence of a scanned pair with a proper single-point intersection. -/
theorem hasProperSelfCrossing_iff (P : Polygon) :
    P.hasProperSelfCrossing = true ↔
      ∃ i j : Nat, i + 2 ≤ j ∧
        j < (if i = 0 then P.pointsCount - 1 else P.pointsCount) ∧
        ∃ pt, P.edgeIntersection i j = LineIntersectionResult.singlePoint pt true := by
  unfold Polygon.hasProperSelfCrossing
  rw [List.any_eq_true]
  constructor
  · rintro ⟨⟨i, j⟩, hmem, hp⟩
    rw [mem_scanPairs] at hmem
    refine ⟨i, j, hmem.2.1, hmem.2.2, ?_⟩
    revert hp
    cases h : P.edgeIntersection i j with
    | singlePoint pt proper =>
      cases proper with
      | true => exact fun _ => ⟨pt, rfl⟩
      | false => exact fun hc => absurd hc (by simp)
    | noIntersection => exact fun hc => absurd hc (by simp)
    | collinear => exact fun hc => absurd hc (by simp)
  · rintro ⟨i, j, h2, h3, pt, hp⟩
    refine ⟨(i, j), ?_, ?_⟩
    · rw [mem_scanPairs]
      refine ⟨?_, h2, h3⟩
      split at h3 <;> omega
    · simp only [hp]

/-- **C4, amended.** `is_self_crossing` returns true iff some pair of edges
`(i, j)` with `j ≥ i + 2` (excluding the last-to-first wrap edge when
`i = 0`) intersects *in any fashion* — a proper crossing, a mere endpoint
touch, or a collinear overlap all count, because the source only tests
`result.is_some()` and never looks at the properness flag or the variant. -/
theorem claim_C4 (P : Polygon) :
    P.isSelfCrossing = true ↔
      ∃ i j : Nat, i + 2 ≤ j ∧
        j < (if i = 0 then P.pointsCount - 1 else P.pointsCount) ∧
        P.edgeIntersection i j ≠ LineIntersectionResult.noIntersection := by
  unfold Polygon.isSelfCrossing
  rw [List.any_eq_true]
  constructor
  · rintro ⟨⟨i, j⟩, hmem, hp⟩
    rw [mem_scanPairs] at hmem
    exact ⟨i, j, hmem.2.1, hmem.2.2, by simpa using hp⟩
  · rintro ⟨i, j, h2, h3, hp⟩
    refine ⟨(i, j), ?_, by simpa using hp⟩
    rw [mem_scanPairs]
    refine ⟨?_, h2, h3⟩
    split at h3 <;> omega

/-- A quadrilateral in which the non-adjacent edges 0 and 2 merely touch:
vertex 3 = `(5,0)` lies in the interior of edge 0 = `(0,0)→(10,0)`. -/
def touchPoly : Polygon := Polygon.create [⟨0, 0⟩, ⟨10, 0⟩, ⟨10, 10⟩, ⟨5, 0⟩]

/-- **C4, counterexample.** On `touchPoly`, `is_self_crossing` returns `true`
although no scanned pair of edges has a proper (non-collinear, single-point,
interior) intersection — the contact is an improper endpoint touch, which the
claim says must be ignored. -/
theorem claim_C4_counterexample :
    touchPoly.isSelfCrossing = true ∧
      ¬ ∃ i j : Nat, i + 2 ≤ j ∧
          j < (if i = 0 then touchPoly.pointsCount - 1 else touchPoly.pointsCount) ∧
          ∃ pt, touchPoly.edgeIntersection i j = LineIntersectionResult.singlePoint pt true :=
  ⟨by with_unfolding_all decide, fun h => by
    have hc := (hasProperSelfCrossing_iff touchPoly).mpr h
    exact absurd hc (by with_unfolding_all decide)⟩

/-! ## Claim C1: contents of the crossing map -/

@[simp] theorem crossingsAt_nil (k : Nat) : crossingsAt [] k = [] := rfl

theorem crossingsAt_alPush_self (m : CrossMap) (k : Nat) (e : Nat × Vec2) :
    crossingsAt (alPush m k e) k = crossingsAt m k ++ [e] := by
  induction m with
  | nil => simp [alPush, crossingsAt, alGet]
  | cons kv rest ih =>
    obtain ⟨k', v⟩ := kv
    by_cases h : k' = k
    · subst h
      simp [alPush, crossingsAt, alGet]
    · simp only [alPush, if_neg h]
      simpa [crossingsAt, alGet, h] using ih

theorem crossingsAt_alPush_ne (m : CrossMap) (k k' : Nat) (e : Nat × Vec2) (h : k' ≠ k) :
    crossingsAt (alPush m k e) k' = crossingsAt m k' := by
  induction m with
  | nil => simp [alPush, crossingsAt, alGet, if_neg (show ¬k = k' from fun hh => h hh.symm)]
  | cons kv rest ih =>
    obtain ⟨k'', v⟩ := kv
    by_cases h2 : k'' = k
    · subst h2
      simp [alPush, crossingsAt, alGet,
        if_neg (show ¬k'' = k' from fun hh => h hh.symm)]
    · simp only [alPush, if_neg h2]
      by_cases h3 : k'' = k'
      · subst h3
        simp [crossingsAt, alGet]
      · simpa [crossingsAt, alGet, h3] using ih

theorem crossingsAt_crossingStepAux (m : CrossMap) (i j k : Nat) (r : LineIntersectionResult) :
    crossingsAt (crossingStepAux m i j r) k
      = crossingsAt m k ++ (properEntryAux i j k r).toList
        ++ (if i = j then (properEntryAux i j k r).toList else []) := by
  cases r with
  | singlePoint pt proper =>
    cases proper with
    | false => simp [crossingStepAux, properEntryAux]
    | true =>
      simp only [crossingStepAux, properEntryAux]
      by_cases h1 : i = k
      · subst h1
        by_cases h2 : j = i
        · subst h2
          rw [crossingsAt_alPush_self, crossingsAt_alPush_self]
          simp
        · rw [crossingsAt_alPush_ne _ _ _ _ (fun hh => h2 hh.symm),
            crossingsAt_alPush_self]
          simp [h2, show ¬i = j from fun hh => h2 hh.symm]
      · by_cases h2 : j = k
        · subst h2
          rw [crossingsAt_alPush_self, crossingsAt_alPush_ne _ _ _ _ (fun hh => h1 hh.symm)]
          simp [h1, show ¬i = j from fun hh => h1 hh]
        · rw [crossingsAt_alPush_ne _ _ _ _ (fun hh => h2 hh.symm),
            crossingsAt_alPush_ne _ _ _ _ (fun hh => h1 hh.symm)]
          simp [h1, h2]
  | noIntersection => simp [crossingStepAux, properEntryAux]
  | collinear => simp [crossingStepAux, properEntryAux]

theorem crossingsAt_crossingStep (P : Polygon) (m : CrossMap) (ij : Nat × Nat) (k : Nat)
    (hij : ij.1 ≠ ij.2) :
    crossingsAt (P.crossingStep m ij) k
      = crossingsAt m k ++ (properEntryAux ij.1 ij.2 k (P.edgeIntersection ij.1 ij.2)).toList := by
  rw [Polygon.crossingStep, crossingsAt_crossingStepAux, if_neg hij]
  simp

theorem crossingsAt_foldl (P : Polygon) (l : List (Nat × Nat)) (m : CrossMap) (k : Nat)
    (hl : ∀ ij ∈ l, ij.1 ≠ ij.2) :
    crossingsAt (l.foldl P.crossingStep m) k
      = crossingsAt m k
        ++ l.filterMap (fun ij => properEntryAux ij.1 ij.2 k (P.edgeIntersection ij.1 ij.2)) := by
  induction l generalizing m with
  | nil => simp
  | cons a l ih =>
    have ha := hl a (List.mem_cons_self _ l)
    rw [List.foldl_cons,
      ih (P.crossingStep m a) (fun ij hij => hl ij (List.mem_cons_of_mem _ hij)),
      crossingsAt_crossingStep P m a k ha, List.filterMap_cons]
    cases h : properEntryAux a.1 a.2 k (P.edgeIntersection a.1 a.2) <;>
      simp [List.append_assoc]

theorem scanPairs_ne (n : Nat) : ∀ ij ∈ scanPairs n, ij.1 ≠ ij.2 := by
  rintro ⟨i, j⟩ h
  rw [mem_scanPairs] at h
  simp only [ne_eq]
  omega

/-- **C1, amended.** For every polygon and edge id `k`, the crossing map built
by `get_self_crossing_edges` records under `k` the *complete list* of proper
intersections of edge `k` with non-adjacent scanned edges — one `(partner,
point)` entry per crossing, in scan order (and nothing for an edge with no
proper crossing).  No closest-point reduction takes place here; when several
crossings exist the edge is mapped to all of them. -/
theorem claim_C1 (P : Polygon) (k : Nat) :
    crossingsAt P.getSelfCrossingEdges k = P.properCrossingsAt k := by
  unfold Polygon.getSelfCrossingEdges Polygon.properCrossingsAt
  rw [crossingsAt_foldl P _ [] k (scanPairs_ne P.pointsCount), crossingsAt_nil,
    List.nil_append]

/-- A hexagon whose edge 0 = `(0,0)→(10,0)` is properly crossed by both edge 2
and edge 3. -/
def doubleCrossPoly : Polygon :=
  Polygon.create [⟨0, 0⟩, ⟨10, 0⟩, ⟨2, 5⟩, ⟨3, -5⟩, ⟨5, 5⟩, ⟨8, 5⟩]

/-- **C1, counterexample.** In the crossing map of `doubleCrossPoly`, edge 0 is
mapped to *two* entries — its crossings with edges 2 and 3 — not to a single
closest entry as the claim states. -/
theorem claim_C1_counterexample :
    crossingsAt doubleCrossPoly.getSelfCrossingEdges 0
      = [(2, ⟨(5 : ℚ)/2, 0⟩), (3, ⟨4, 0⟩)] := by
  with_unfolding_all rfl

/-! ## Claim C2: the no-crossing / naive-flag branch of `update_offset` -/

theorem crossingStep_of_not_proper (P : Polygon) (m : CrossMap) (ij : Nat × Nat)
    (h : (match P.edgeIntersection ij.1 ij.2 with
          | LineIntersectionResult.singlePoint _ true => true
          | _ => false) = false) :
    P.crossingStep m ij = m := by
  unfold Polygon.crossingStep
  cases hr : P.edgeIntersection ij.1 ij.2 with
  | singlePoint pt proper =>
    cases proper with
    | true => rw [hr] at h; exact absurd h (by simp)
    | false => rfl
  | noIntersection => rfl
  | collinear => rfl

theorem getSelfCrossingEdges_eq_nil (P : Polygon) (h : P.hasProperSelfCrossing = false) :
    P.getSelfCrossingEdges = [] := by
  unfold Polygon.getSelfCrossingEdges
  unfold Polygon.hasProperSelfCrossing at h
  rw [List.any_eq_false] at h
  have hgen : ∀ (l : List (Nat × Nat)) (m : CrossMap),
      (∀ ij ∈ l,
        (match P.edgeIntersection ij.1 ij.2 with
         | LineIntersectionResult.singlePoint _ true => true
         | _ => false) = false) →
      l.foldl P.crossingStep m = m := by
    intro l
    induction l with
    | nil => intro m _; rfl
    | cons a l ih =>
      intro m hl
      rw [List.foldl_cons, crossingStep_of_not_proper P m a (hl a (List.mem_cons_self _ l))]
      exact ih m fun ij hij => hl ij (List.mem_cons_of_mem _ hij)
  exact hgen _ [] fun ij hij => by simpa using h ij hij

theorem foldl_updatePointPos_pointsCount (v : Nat → Vec2) (l : List Nat) (Q : Polygon) :
    (l.foldl (fun R i => R.updatePointPos (v i) (i : ℤ)) Q).pointsCount = Q.pointsCount := by
  induction l generalizing Q with
  | nil => rfl
  | cons i l ih => rw [List.foldl_cons, ih]; simp

theorem foldl_updatePointPos_getD (v : Nat → Vec2) (l : List Nat) (Q : Polygon) (k : Nat)
    (hk : k < Q.pointsCount) (hl : ∀ i ∈ l, i < Q.pointsCount) :
    (l.foldl (fun R i => R.updatePointPos (v i) (i : ℤ)) Q).points.getD k default
      = if k ∈ l then { Q.points.getD k default with pos := v k }
        else Q.points.getD k default := by
  induction l generalizing Q with
  | nil => simp
  | cons i l ih =>
    rw [List.foldl_cons]
    have hi : i < Q.pointsCount := hl i (List.mem_cons_self _ l)
    have hfix : Q.fixIndex (i : ℤ) = i := Q.fixIndex_coe i hi
    have hQ' : (Q.updatePointPos (v i) (i : ℤ)).points.getD k default
        = if i = k then { Q.points.getD k default with pos := v i }
          else Q.points.getD k default := by
      unfold Polygon.updatePointPos
      rw [hfix]
      have hkQ : k < Q.points.length := by simpa [Polygon.pointsCount] using hk
      rw [List.getD_eq_getElem _ _
          (show k < (Q.points.set i _).length by simpa using hkQ),
        List.getElem_set, List.getD_eq_getElem _ _ hkQ]
      by_cases hik : i = k
      · subst hik
        simp [List.getElem?_eq_getElem hkQ]
      · rw [if_neg hik, if_neg hik]
    rw [ih _ (by simpa using hk)
        (fun x hx => by
          simpa using hl x (List.mem_cons_of_mem _ hx)),
      hQ']
    by_cases hkl : k ∈ l
    · by_cases hik : i = k <;> simp [hkl, hik, List.mem_cons]
    · by_cases hik : i = k
      · simp [hkl, hik, List.mem_cons]
      · simp [hkl, hik, List.mem_cons, show ¬k = i from fun h => hik h.symm]

theorem naiveOffsetPoly_map_pos (o : PolygonObject) :
    o.naiveOffsetPoly.points.map (fun p => p.pos)
      = (List.range o.polygon.pointsCount).map (fun (i : Nat) =>
          o.polygon.getPointPos (i : ℤ)
            + (o.polygon.getOffsetVec (i : ℤ)).scale o.offsetSize) := by
  unfold PolygonObject.naiveOffsetPoly
  apply List.ext_getElem
  · have hlen := foldl_updatePointPos_pointsCount
      (fun i => o.polygon.getPointPos (i : ℤ)
        + (o.polygon.getOffsetVec (i : ℤ)).scale o.offsetSize)
      (List.range o.polygon.pointsCount) o.polygon
    simpa [Polygon.pointsCount] using hlen
  · intro n h1 h2
    have hn : n < o.polygon.pointsCount := by
      simpa [Polygon.pointsCount] using h2
    have hgetD := foldl_updatePointPos_getD
      (fun i => o.polygon.getPointPos (i : ℤ)
        + (o.polygon.getOffsetVec (i : ℤ)).scale o.offsetSize)
      (List.range o.polygon.pointsCount) o.polygon n hn
      (fun i hi => List.mem_range.mp hi)
    rw [if_pos (List.mem_range.mpr hn)] at hgetD
    have hlt : n < (List.foldl
        (fun R i => R.updatePointPos
          (o.polygon.getPointPos (i : ℤ)
            + (o.polygon.getOffsetVec (i : ℤ)).scale o.offsetSize) (i : ℤ))
        o.polygon (List.range o.polygon.pointsCount)).points.length := by
      simpa using h1
    rw [List.getElem_map, List.getElem_map, List.getElem_range]
    rw [List.getD_eq_getElem _ _ hlt] at hgetD
    rw [hgetD]

/-- **C2.** Whenever `update_offset` runs with offset display enabled and a
non-self-crossing base polygon, if the naive offset has no proper
self-crossing (equivalently: its crossing map is empty) or the naive-mode
flag is set, the resulting offset polygon's vertex positions are exactly the
naive offset — each base vertex moved along its stored miter offset vector
scaled by the offset distance, in the same order. -/
theorem claim_C2 (o : PolygonObject) (innerFuel : Nat)
    (hshow : o.showOffset = true)
    (hbase : o.polygon.isSelfCrossing = false)
    (hnaive : o.naiveOffsetPoly.hasProperSelfCrossing = false ∨ o.naiveOffset = true) :
    (o.updateOffset innerFuel).offsetPolygon.points.map (fun p => p.pos)
      = (List.range o.polygon.pointsCount).map (fun (i : Nat) =>
          o.polygon.getPointPos (i : ℤ)
            + (o.polygon.getOffsetVec (i : ℤ)).scale o.offsetSize) := by
  have hcond : (o.naiveOffsetPoly.getSelfCrossingEdges.isEmpty || o.naiveOffset) = true := by
    rcases hnaive with h | h
    · rw [getSelfCrossingEdges_eq_nil _ h]
      rfl
    · rw [h]
      simp
  unfold PolygonObject.updateOffset
  rw [hshow, hbase]
  simp only [Bool.not_true, Bool.false_or, if_false, Bool.false_eq_true]
  rw [hcond]
  simp only [if_true]
  exact naiveOffsetPoly_map_pos o

/-- A CCW `10 × 10` square with stored outward miter vectors at the corners. -/
def squareObj : PolygonObject :=
  ⟨⟨[⟨⟨0, 0⟩, false, EdgeConstraint.none, ⟨-1, -1⟩⟩,
     ⟨⟨10, 0⟩, false, EdgeConstraint.none, ⟨1, -1⟩⟩,
     ⟨⟨10, 10⟩, false, EdgeConstraint.none, ⟨1, 1⟩⟩,
     ⟨⟨0, 10⟩, false, EdgeConstraint.none, ⟨-1, 1⟩⟩]⟩,
   [], true, false, 2, ⟨[]⟩, false⟩

theorem claim_C2_witness :
    (squareObj.updateOffset 0).offsetPolygon.points.map (fun p => p.pos)
      = (List.range squareObj.polygon.pointsCount).map (fun (i : Nat) =>
          squareObj.polygon.getPointPos (i : ℤ)
            + (squareObj.polygon.getOffsetVec (i : ℤ)).scale squareObj.offsetSize) :=
  claim_C2 squareObj 0 rfl (by with_unfolding_all rfl)
    (Or.inl (by with_unfolding_all rfl))

/-! ## Claim C3: the main repair loop is bounded by `n + 1` iterations -/

theorem runLoop_count_le (body : WalkState → WalkState) (start : Nat) :
    ∀ (fuel : Nat) (s : WalkState), (runLoop body start fuel s).2 ≤ fuel := by
  intro fuel
  induction fuel with
  | zero => intro s; simp [runLoop]
  | succ f ih =>
    intro s
    unfold runLoop
    by_cases hf : f = 0
    · simp [hf]
    · rw [if_neg hf]
      by_cases hs : (body s).i = start
      · rw [if_pos hs]
        omega
      · rw [if_neg hs]
        have := ih (body s)
        simp only []
        omega

theorem runLoop_stops (body : WalkState → WalkState) (start : Nat) :
    ∀ (k : Nat), 1 ≤ k → ∀ (fuel : Nat) (s : WalkState), k ≤ fuel →
      (body^[k] s).i = start → (runLoop body start fuel s).2 ≤ k := by
  intro k
  induction k with
  | zero => intro h; omega
  | succ m ih =>
    intro _ fuel s hfuel hit
    obtain ⟨f, rfl⟩ : ∃ f, fuel = f + 1 := ⟨fuel - 1, by omega⟩
    unfold runLoop
    by_cases hf : f = 0
    · rw [if_pos hf]
      omega
    · rw [if_neg hf]
      by_cases hs : (body s).i = start
      · rw [if_pos hs]
        omega
      · rw [if_neg hs]
        rcases Nat.eq_zero_or_pos m with hm | hm
        · subst hm
          exact absurd (by simpa using hit) hs
        · have hit' : (body^[m] (body s)).i = start := by
            rwa [← Function.iterate_succ_apply]
          have := ih hm f (body s) (by omega) hit'
          simp only []
          omega

/-- **C3.** The main repair loop of `update_offset` (the `loop { ... }` run by
`offsetWalk` over the naive offset polygon) executes its body at most `n + 1`
times, where `n` is the vertex count of the naive offset polygon, and if after
some iteration `k ≤ n + 1` the walk index has returned to the start vertex,
the loop stops by iteration `k`.  This holds for every crossing map and every
inner-chain fuel, i.e. independently of what the chain-following step
produces. -/
theorem claim_C3 (naive : Polygon) (cr : CrossMap) (innerFuel start : Nat) :
    (offsetWalk naive cr innerFuel start).2 ≤ naive.pointsCount + 1 ∧
    (∀ k : Nat, 1 ≤ k → k ≤ naive.pointsCount + 1 →
      ((loopBody naive cr innerFuel)^[k] ⟨start, [], []⟩).i = start →
      (offsetWalk naive cr innerFuel start).2 ≤ k) :=
  ⟨runLoop_count_le (loopBody naive cr innerFuel) start (naive.pointsCount + 1) _,
   fun k h1 h2 h3 =>
     runLoop_stops (loopBody naive cr innerFuel) start k h1 (naive.pointsCount + 1) _ h2 h3⟩

theorem claim_C3_witness :
    (offsetWalk squareObj.polygon [] 0 0).2 ≤ squareObj.polygon.pointsCount + 1 ∧
    (offsetWalk squareObj.polygon [] 0 0).2 ≤ 4 :=
  ⟨(claim_C3 squareObj.polygon [] 0 0).1,
   (claim_C3 squareObj.polygon [] 0 0).2 4 (by decide) (by decide)
     (by with_unfolding_all decide)⟩

/-! ## Claim C10: adjacency edits clear the preceding edge's constraint -/

theorem Polygon.fixIndex_pred (P : Polygon) (id : ℤ) (h : 0 < P.pointsCount) :
    P.fixIndex (id - 1)
      = if P.fixIndex id = 0 then P.pointsCount - 1 else P.fixIndex id - 1 := by
  have hn : (0 : ℤ) < (P.pointsCount : ℤ) := by exact_mod_cast h
  have ha0 : 0 ≤ id % (P.pointsCount : ℤ) := Int.emod_nonneg id (by omega)
  have ha1 : id % (P.pointsCount : ℤ) < (P.pointsCount : ℤ) := Int.emod_lt_of_pos id hn
  have e1 : (id - 1) % (P.pointsCount : ℤ)
      = (id % (P.pointsCount : ℤ) - 1) % (P.pointsCount : ℤ) := by
    have hsplit : id - 1
        = (id % (P.pointsCount : ℤ) - 1)
          + (P.pointsCount : ℤ) * (id / (P.pointsCount : ℤ)) := by
      rw [Int.emod_def]
      ring
    rw [hsplit, Int.add_mul_emod_self_left]
  unfold Polygon.fixIndex
  by_cases hz : id % (P.pointsCount : ℤ) = 0
  · have hneg : ((-1 : ℤ)) % (P.pointsCount : ℤ) = (P.pointsCount : ℤ) - 1 := by
      have hsplit : (-1 : ℤ) = ((P.pointsCount : ℤ) - 1) + (P.pointsCount : ℤ) * (-1) := by
        ring
      rw [hsplit, Int.add_mul_emod_self_left,
        Int.emod_eq_of_lt (by omega) (by omega)]
    rw [if_pos (by omega)]
    rw [e1, hz]
    norm_num [hneg]
  · have hlt : (id % (P.pointsCount : ℤ) - 1) % (P.pointsCount : ℤ)
        = id % (P.pointsCount : ℤ) - 1 :=
      Int.emod_eq_of_lt (by omega) (by omega)
    rw [if_neg (by omega)]
    rw [e1, hlt]
    omega

theorem Polygon.fixIndex_eq_of_count (P Q : Polygon) (h : P.pointsCount = Q.pointsCount)
    (id : ℤ) : P.fixIndex id = Q.fixIndex id := by
  unfold Polygon.fixIndex
  rw [h]

theorem updateOffset_polygon (o : PolygonObject) (innerFuel : Nat) :
    (o.updateOffset innerFuel).polygon = o.polygon := by
  unfold PolygonObject.updateOffset
  by_cases hc : (!o.showOffset || o.polygon.isSelfCrossing) = true
  · rw [if_pos hc]
  · rw [if_neg hc]
    by_cases hc2 : (o.naiveOffsetPoly.getSelfCrossingEdges.isEmpty || o.naiveOffset) = true
    · rw [if_pos hc2]
    · rw [if_neg hc2]

/-- **C10.** Both adjacency-changing edits clear the constraint of the edge
preceding the edit index before touching the vertex list, so afterwards no
constraint survives next to the edit point: after `insert_point(id, pos)` the
old preceding edge (now at index `fix(id) - 1`, or at index `count` when
`fix(id) = 0`) and the new vertex's own edge both carry `None`; after an
accepted `remove_point(id)` the edge joining the removed vertex's former
neighbours carries `None`. -/
theorem claim_C10 (o : PolygonObject) (id : ℤ) (pos : Vec2) (innerFuel : Nat)
    (h1 : 1 ≤ o.polygon.pointsCount) :
    (((o.insertPoint id pos innerFuel).polygon.points.getD
        (if o.polygon.fixIndex id = 0 then o.polygon.pointsCount
         else o.polygon.fixIndex id - 1) default).edgeConstraint = EdgeConstraint.none ∧
     ((o.insertPoint id pos innerFuel).polygon.points.getD
        (o.polygon.fixIndex id) default).edgeConstraint = EdgeConstraint.none) ∧
    (4 ≤ o.polygon.pointsCount →
     ((o.removePoint id innerFuel).1.polygon.points.getD
        (if o.polygon.fixIndex id = 0 then o.polygon.pointsCount - 2
         else o.polygon.fixIndex id - 1) default).edgeConstraint = EdgeConstraint.none) := by
  have hkn : o.polygon.fixIndex id < o.polygon.pointsCount :=
    o.polygon.fixIndex_lt id (by omega)
  have hj : o.polygon.fixIndex (id - 1)
      = if o.polygon.fixIndex id = 0 then o.polygon.pointsCount - 1
        else o.polygon.fixIndex id - 1 :=
    o.polygon.fixIndex_pred id (by omega)
  have hP1pts : (o.polygon.setEdgeContsraint (id - 1) EdgeConstraint.none).points
      = o.polygon.points.set (o.polygon.fixIndex (id - 1))
          { o.polygon.points.getD (o.polygon.fixIndex (id - 1)) default with
            edgeConstraint := EdgeConstraint.none } := rfl
  have hP1len : (o.polygon.setEdgeContsraint (id - 1) EdgeConstraint.none).pointsCount
      = o.polygon.pointsCount := by simp
  have hsetlen : (o.polygon.setEdgeContsraint (id - 1) EdgeConstraint.none).points.length
      = o.polygon.points.length := by
    simpa [Polygon.pointsCount] using hP1len
  have hfixP1 : (o.polygon.setEdgeContsraint (id - 1) EdgeConstraint.none).fixIndex id
      = o.polygon.fixIndex id :=
    Polygon.fixIndex_eq_of_count _ _ hP1len id
  have hlen0 : o.polygon.points.length = o.polygon.pointsCount := rfl
  have hset_constraint : ∀ (m : Nat), m < o.polygon.pointsCount →
      ((o.polygon.setEdgeContsraint (id - 1) EdgeConstraint.none).points.getD m
        default).edgeConstraint
        = if o.polygon.fixIndex (id - 1) = m
          then EdgeConstraint.none
          else (o.polygon.points.getD m default).edgeConstraint := by
    intro m hm
    have h3 : m < o.polygon.points.length := by
      simpa [Polygon.pointsCount] using hm
    have h2 : m < (o.polygon.setEdgeContsraint (id - 1) EdgeConstraint.none).points.length := by
      omega
    rw [List.getD_eq_getElem _ _ h2, List.getD_eq_getElem _ _ h3]
    simp only [hP1pts]
    rw [List.getElem_set]
    by_cases he : o.polygon.fixIndex (id - 1) = m
    · rw [if_pos he, if_pos he]
    · rw [if_neg he, if_neg he]
  constructor
  · have hins : (o.insertPoint id pos innerFuel).polygon
        = (o.polygon.setEdgeContsraint (id - 1) EdgeConstraint.none).insertPointWithPos
            id pos := by
      unfold PolygonObject.insertPoint
      simp only [updateOffset_polygon]
    have hinspts : (o.insertPoint id pos innerFuel).polygon.points
        = (o.polygon.setEdgeContsraint (id - 1) EdgeConstraint.none).points.insertIdx
            (o.polygon.fixIndex id) (Point.new pos) := by
      rw [hins]
      unfold Polygon.insertPointWithPos
      rw [hfixP1]
    have hinslen : ((o.polygon.setEdgeContsraint (id - 1) EdgeConstraint.none).points.insertIdx
        (o.polygon.fixIndex id) (Point.new pos)).length = o.polygon.pointsCount + 1 := by
      rw [List.length_insertIdx _ _ (by omega)]
      omega
    constructor
    · by_cases hz : o.polygon.fixIndex id = 0
      · rw [if_pos hz]
        rw [if_pos hz] at hj
        obtain ⟨m, hm⟩ : ∃ m, o.polygon.pointsCount = m + 1 :=
          ⟨o.polygon.pointsCount - 1, by omega⟩
        rw [hinspts, hz, List.insertIdx_zero, hm, List.getD_cons_succ]
        have hset := hset_constraint m (by omega)
        rw [hset, if_pos (by omega)]
      · rw [if_neg hz]
        rw [if_neg hz] at hj
        have hb1 : o.polygon.fixIndex id - 1
            < ((o.polygon.setEdgeContsraint (id - 1) EdgeConstraint.none).points.insertIdx
                (o.polygon.fixIndex id) (Point.new pos)).length := by
          omega
        rw [hinspts, List.getD_eq_getElem _ _ hb1]
        rw [List.getElem_insertIdx_of_lt _ _ _ _ (by omega) (by omega)]
        have hset := hset_constraint (o.polygon.fixIndex id - 1) (by omega)
        rw [List.getD_eq_getElem _ _ (by omega)] at hset
        rw [hset, if_pos (by omega)]
    · have hb4 : o.polygon.fixIndex id
          < ((o.polygon.setEdgeContsraint (id - 1) EdgeConstraint.none).points.insertIdx
              (o.polygon.fixIndex id) (Point.new pos)).length := by
        omega
      rw [hinspts, List.getD_eq_getElem _ _ hb4]
      rw [List.getElem_insertIdx_self _ _ _ (by omega)]
      rfl
  · intro h4
    have hrm : (o.removePoint id innerFuel).1.polygon
        = (o.polygon.setEdgeContsraint (id - 1) EdgeConstraint.none).removePoint id := by
      unfold PolygonObject.removePoint
      rw [if_neg (by omega)]
      simp only [updateOffset_polygon]
    have hrmpts : (o.removePoint id innerFuel).1.polygon.points
        = (o.polygon.setEdgeContsraint (id - 1) EdgeConstraint.none).points.eraseIdx
            (o.polygon.fixIndex id) := by
      rw [hrm]
      unfold Polygon.removePoint
      rw [hfixP1]
    have hrmlen : ((o.polygon.setEdgeContsraint (id - 1) EdgeConstraint.none).points.eraseIdx
        (o.polygon.fixIndex id)).length = o.polygon.pointsCount - 1 := by
      rw [List.length_eraseIdx]
      rw [if_pos (by omega)]
      omega
    by_cases hz : o.polygon.fixIndex id = 0
    · rw [if_pos hz]
      rw [if_pos hz] at hj
      have hb2 : o.polygon.pointsCount - 2
          < ((o.polygon.setEdgeContsraint (id - 1) EdgeConstraint.none).points.eraseIdx
              (o.polygon.fixIndex id)).length := by
        omega
      rw [hrmpts, List.getD_eq_getElem _ _ hb2]
      rw [List.getElem_eraseIdx]
      rw [dif_neg (by omega)]
      have hset := hset_constraint (o.polygon.pointsCount - 2 + 1) (by omega)
      rw [List.getD_eq_getElem _ _ (by omega)] at hset
      rw [hset, if_pos (by omega)]
    · rw [if_neg hz]
      rw [if_neg hz] at hj
      have hb3 : o.polygon.fixIndex id - 1
          < ((o.polygon.setEdgeContsraint (id - 1) EdgeConstraint.none).points.eraseIdx
              (o.polygon.fixIndex id)).length := by
        omega
      rw [hrmpts, List.getD_eq_getElem _ _ hb3]
      rw [List.getElem_eraseIdx]
      rw [dif_pos (by omega)]
      have hset := hset_constraint (o.polygon.fixIndex id - 1) (by omega)
      rw [List.getD_eq_getElem _ _ (by omega)] at hset
      rw [hset, if_pos (by omega)]

def quadObj : PolygonObject :=
  ⟨⟨[⟨⟨0, 0⟩, false, EdgeConstraint.none, ⟨0, 0⟩⟩,
     ⟨⟨10, 0⟩, false, EdgeConstraint.horizontal, ⟨0, 0⟩⟩,
     ⟨⟨10, 10⟩, false, EdgeConstraint.none, ⟨0, 0⟩⟩,
     ⟨⟨0, 10⟩, false, EdgeConstraint.vertical, ⟨0, 0⟩⟩]⟩,
   [], false, false, 0, ⟨[]⟩, false⟩

theorem claim_C10_witness :
    (((quadObj.insertPoint 2 ⟨5, 5⟩ 0).polygon.points.getD
        (if quadObj.polygon.fixIndex 2 = 0 then quadObj.polygon.pointsCount
         else quadObj.polygon.fixIndex 2 - 1) default).edgeConstraint
      = EdgeConstraint.none ∧
     ((quadObj.insertPoint 2 ⟨5, 5⟩ 0).polygon.points.getD
        (quadObj.polygon.fixIndex 2) default).edgeConstraint = EdgeConstraint.none) ∧
    (4 ≤ quadObj.polygon.pointsCount →
     ((quadObj.removePoint 2 0).1.polygon.points.getD
        (if quadObj.polygon.fixIndex 2 = 0 then quadObj.polygon.pointsCount - 2
         else quadObj.polygon.fixIndex 2 - 1) default).edgeConstraint
      = EdgeConstraint.none) :=
  claim_C10 quadObj 2 ⟨5, 5⟩ 0 (by decide)

/-! ## Claims C5 and C6: `assert_ccw` — orientation and constraint remap

The key geometric fact is that reversing the vertex list negates the cyclic
shoelace sum.  We factor the cyclic sum through an open-path sum `pathSum`. -/

/-- Sum of `shoelaceTerm` over the consecutive pairs of an (open) path. -/
def pathSum : List Vec2 → ℚ
  | [] => 0
  | [_] => 0
  | a :: b :: rest => shoelaceTerm a b + pathSum (b :: rest)

@[simp] theorem pathSum_nil : pathSum [] = 0 := rfl

@[simp] theorem pathSum_single (a : Vec2) : pathSum [a] = 0 := rfl

@[simp] theorem pathSum_cons_cons (a b : Vec2) (l : List Vec2) :
    pathSum (a :: b :: l) = shoelaceTerm a b + pathSum (b :: l) := rfl

theorem shoelaceTerm_symm (a b : Vec2) : shoelaceTerm b a = -shoelaceTerm a b := by
  unfold shoelaceTerm
  ring

theorem pathSum_append_single (l : List Vec2) (x : Vec2) (h : l ≠ []) :
    pathSum (l ++ [x]) = pathSum l + shoelaceTerm (l.getD (l.length - 1) default) x := by
  induction l with
  | nil => exact absurd rfl h
  | cons a t ih =>
    cases t with
    | nil => simp
    | cons b t2 =>
      have hne : b :: t2 ≠ [] := by simp
      have ht := ih hne
      simp only [List.cons_append] at ht ⊢
      rw [pathSum_cons_cons, ht, pathSum_cons_cons]
      have hlen : (a :: b :: t2).length - 1 = (b :: t2).length - 1 + 1 := by
        simp
      rw [hlen, List.getD_cons_succ]
      ring

theorem pathSum_reverse (l : List Vec2) : pathSum l.reverse = -pathSum l := by
  induction l with
  | nil => simp
  | cons a t ih =>
    cases t with
    | nil => simp
    | cons b t2 =>
      rw [List.reverse_cons, pathSum_append_single _ _ (by simp), ih]
      have hhead : ((b :: t2).reverse).getD ((b :: t2).reverse.length - 1) default = b := by
        rw [List.getD_eq_getElem _ _ (by simp), List.getElem_reverse]
        simp
      rw [hhead, pathSum_cons_cons, shoelaceTerm_symm]
      ring

/-- The cyclic shoelace sum over a position list, exactly as the `assert_ccw`
loop computes it (index `i+1` wraps modulo the length). -/
def cyclicSum (l : List Vec2) : ℚ :=
  ((List.range l.length).map fun i =>
    shoelaceTerm (l.getD i default) (l.getD ((i + 1) % l.length) default)).sum

theorem pathSum_eq_sum (l : List Vec2) :
    pathSum l = ((List.range (l.length - 1)).map fun i =>
      shoelaceTerm (l.getD i default) (l.getD (i + 1) default)).sum := by
  induction l with
  | nil => simp
  | cons a t ih =>
    cases t with
    | nil => simp
    | cons b t2 =>
      rw [pathSum_cons_cons, ih]
      have hlen : (a :: b :: t2).length - 1 = ((b :: t2).length - 1) + 1 := by simp
      rw [hlen, List.range_succ_eq_map, List.map_cons, List.sum_cons, List.map_map]
      have hcomp : ((fun i => shoelaceTerm ((a :: b :: t2).getD i default)
            ((a :: b :: t2).getD (i + 1) default)) ∘ Nat.succ)
          = fun i => shoelaceTerm ((b :: t2).getD i default)
            ((b :: t2).getD (i + 1) default) := by
        funext i
        simp [Function.comp, List.getD_cons_succ]
      rw [hcomp]
      simp [List.getD_cons_succ]

theorem cyclicSum_eq_pathSum (l : List Vec2) (h : l ≠ []) :
    cyclicSum l = pathSum (l ++ [l.getD 0 default]) := by
  obtain ⟨m, hm⟩ : ∃ m, l.length = m + 1 :=
    ⟨l.length - 1, by cases l with | nil => exact absurd rfl h | cons a t => simp⟩
  unfold cyclicSum
  rw [hm, List.range_succ, List.map_append, List.sum_append]
  have hlast : (m + 1) % (m + 1) = 0 := Nat.mod_self (m + 1)
  have hmap : (List.range m).map (fun i =>
        shoelaceTerm (l.getD i default) (l.getD ((i + 1) % (m + 1)) default))
      = (List.range m).map (fun i =>
        shoelaceTerm (l.getD i default) (l.getD (i + 1) default)) := by
    apply List.map_congr_left
    intro i hi
    rw [Nat.mod_eq_of_lt (by simpa using List.mem_range.mp hi |> fun hh => by omega)]
  rw [hmap]
  rw [pathSum_append_single _ _ h, pathSum_eq_sum, hm]
  simp [hlast]

theorem cyclicSum_reverse (l : List Vec2) (h : l ≠ []) :
    cyclicSum l.reverse = -cyclicSum l := by
  have hrev_ne : l.reverse ≠ [] := by simpa using h
  rw [cyclicSum_eq_pathSum _ hrev_ne, cyclicSum_eq_pathSum _ h]
  have h0 : (l.reverse).getD 0 default = l.getD (l.length - 1) default := by
    cases l with
    | nil => exact absurd rfl h
    | cons a t =>
      rw [List.getD_eq_getElem _ _ (by simp), List.getElem_reverse,
        List.getD_eq_getElem _ _ (by simp)]
      simp
  rw [h0, show l.reverse ++ [l.getD (l.length - 1) default]
      = (l.getD (l.length - 1) default :: l).reverse from (List.reverse_cons _ _).symm,
    pathSum_reverse]
  cases l with
  | nil => exact absurd rfl h
  | cons a t =>
    rw [pathSum_append_single _ _ (by simp), pathSum_cons_cons]
    simp only [List.getD_cons_zero]
    rw [shoelaceTerm_symm]
    ring

theorem Polygon.fixIndex_natCast (P : Polygon) (m : Nat) (_h : 0 < P.pointsCount) :
    P.fixIndex (m : ℤ) = m % P.pointsCount := by
  unfold Polygon.fixIndex
  have hcast : ((m % P.pointsCount : ℕ) : ℤ) = (m : ℤ) % (P.pointsCount : ℤ) := by
    push_cast
    rfl
  rw [← hcast, Int.toNat_natCast]

theorem Polygon.shoelace_eq_cyclicSum (P : Polygon) :
    P.shoelace = cyclicSum (P.points.map fun p => p.pos) := by
  unfold Polygon.shoelace cyclicSum
  rcases Nat.eq_zero_or_pos P.pointsCount with h0 | hpos
  · rw [h0, show (P.points.map fun p => p.pos).length = 0 by
      simpa [Polygon.pointsCount] using h0]
    simp
  · have hlen : (P.points.map fun p => p.pos).length = P.pointsCount := by
      simp [Polygon.pointsCount]
    rw [hlen]
    apply congrArg
    apply List.map_congr_left
    intro i hi
    have hi' : i < P.pointsCount := List.mem_range.mp hi
    have hposmap : ∀ (j : Nat), j < P.pointsCount →
        (P.points.map fun p => p.pos).getD j default = (P.points.getD j default).pos := by
      intro j hj
      rw [List.getD_eq_getElem _ _ (by omega : j < (P.points.map fun p => p.pos).length),
        List.getElem_map,
        List.getD_eq_getElem _ _ (by simpa [Polygon.pointsCount] using hj)]
    have h1 : P.getPointPos (i : ℤ) = (P.points.map fun p => p.pos).getD i default := by
      unfold Polygon.getPointPos
      rw [P.fixIndex_coe i hi', hposmap i hi']
    have hsucc : ((i : ℤ) + 1) = ((i + 1 : ℕ) : ℤ) := by push_cast; ring
    have h2 : P.getPointPos ((i : ℤ) + 1)
        = (P.points.map fun p => p.pos).getD ((i + 1) % P.pointsCount) default := by
      unfold Polygon.getPointPos
      rw [hsucc, P.fixIndex_natCast (i + 1) hpos,
        hposmap ((i + 1) % P.pointsCount) (Nat.mod_lt _ hpos)]
    rw [h1, h2]

theorem Polygon.reverseWithRemap_pointsCount (P : Polygon) :
    P.reverseWithRemap.pointsCount = P.pointsCount := by
  simp [Polygon.reverseWithRemap, Polygon.pointsCount]

theorem Polygon.pointsCount_eq (P : Polygon) : P.pointsCount = P.points.length := rfl

theorem Polygon.reverseWithRemap_getD (P : Polygon) (i : Nat) (h : i < P.pointsCount) :
    P.reverseWithRemap.points.getD i default
      = { P.points.getD (P.pointsCount - 1 - i) default with
          edgeConstraint :=
            (P.points.getD (P.pointsCount - 1 - ((i + 1) % P.pointsCount))
              default).edgeConstraint } := by
  rw [P.pointsCount_eq] at h ⊢
  unfold Polygon.reverseWithRemap
  have hrevlen : P.points.reverse.length = P.points.length := by simp
  have hmaplen : ((List.range P.points.reverse.length).map fun i =>
      ({ P.points.reverse.getD i default with
         edgeConstraint := ((P.points.reverse.map fun p => p.edgeConstraint).getD
           ((i + 1) % P.points.reverse.length) default) } : Point)).length
      = P.points.length := by
    rw [List.length_map, List.length_range, hrevlen]
  rw [List.getD_eq_getElem _ _ (by rw [hmaplen]; exact h), List.getElem_map,
    List.getElem_range]
  have hrev : P.points.reverse.getD i default
      = P.points.getD (P.points.length - 1 - i) default := by
    have hj1 : i < P.points.reverse.length := by omega
    have hj2 : P.points.length - 1 - i < P.points.length := by omega
    rw [List.getD_eq_getElem _ _ hj1, List.getElem_reverse,
      List.getD_eq_getElem _ _ hj2]
  have hconstraint : (P.points.reverse.map fun p => p.edgeConstraint).getD
        ((i + 1) % P.points.reverse.length) default
      = (P.points.getD (P.points.length - 1 - ((i + 1) % P.points.length))
          default).edgeConstraint := by
    have hml : (P.points.reverse.map fun p => p.edgeConstraint).length
        = P.points.length := by
      rw [List.length_map, hrevlen]
    have hmodlt : (i + 1) % P.points.length < P.points.length := Nat.mod_lt _ (by omega)
    have hb1 : (i + 1) % P.points.length
        < (P.points.reverse.map fun p => p.edgeConstraint).length := by omega
    have hb2 : P.points.length - 1 - (i + 1) % P.points.length < P.points.length := by
      omega
    rw [hrevlen, List.getD_eq_getElem _ _ hb1,
      List.getElem_map, List.getElem_reverse,
      List.getD_eq_getElem _ _ hb2]
  rw [hrev, hconstraint]

theorem Polygon.reverseWithRemap_map_pos (P : Polygon) :
    (P.reverseWithRemap.points.map fun p => p.pos)
      = (P.points.map fun p => p.pos).reverse := by
  have hL : P.reverseWithRemap.points.length = P.points.length := by
    have := P.reverseWithRemap_pointsCount
    rw [P.reverseWithRemap.pointsCount_eq, P.pointsCount_eq] at this
    exact this
  apply List.ext_getElem
  · rw [List.length_map, List.length_reverse, List.length_map, hL]
  · intro n h1 h2
    have hn : n < P.points.length := by
      rw [List.length_map, hL] at h1
      exact h1
    rw [List.getElem_map, List.getElem_reverse, List.getElem_map]
    have hD := P.reverseWithRemap_getD n (by rw [P.pointsCount_eq]; exact hn)
    rw [P.pointsCount_eq] at hD
    have hb3 : P.points.length - 1 - n < P.points.length := by omega
    rw [List.getD_eq_getElem _ _ (by rw [hL]; exact hn),
      List.getD_eq_getElem _ _ hb3] at hD
    rw [hD]
    simp

theorem Polygon.shoelace_reverseWithRemap (P : Polygon) (h : P.points ≠ []) :
    P.reverseWithRemap.shoelace = -P.shoelace := by
  rw [Polygon.shoelace_eq_cyclicSum, Polygon.shoelace_eq_cyclicSum,
    Polygon.reverseWithRemap_map_pos, cyclicSum_reverse _ (by simpa using h)]

/-- **C6.** For every polygon with at least 3 vertices, `assert_ccw` returns
normally with the possibly reversed polygon and a flag; afterwards the signed
shoelace sum is nonnegative, and the flag (a reversal occurred) is true
exactly when the sum computed on entry was `≤ 0`. -/
theorem claim_C6 (P : Polygon) (h3 : 3 ≤ P.pointsCount) :
    ∃ P' b, P.assertCcw = some (P', b) ∧ 0 ≤ P'.shoelace ∧
      (b = true ↔ P.shoelace ≤ 0) := by
  have hne : P.points ≠ [] := by
    rw [P.pointsCount_eq] at h3
    intro hc
    rw [hc] at h3
    simp at h3
  have hproper : P.isProper = true := by
    unfold Polygon.isProper
    rw [if_neg (by rw [P.pointsCount_eq] at h3; omega)]
  unfold Polygon.assertCcw
  rw [hproper]
  simp only [if_true]
  by_cases hs : P.shoelace ≤ 0
  · rw [if_pos hs]
    refine ⟨P.reverseWithRemap, true, rfl, ?_, by simp [hs]⟩
    rw [P.shoelace_reverseWithRemap hne]
    linarith
  · rw [if_neg hs]
    exact ⟨P, false, rfl, by linarith, by simp [hs]⟩

theorem claim_C6_witness :
    3 ≤ trianglePoly.pointsCount ∧
    ∃ P' b, trianglePoly.assertCcw = some (P', b) ∧ 0 ≤ P'.shoelace ∧
      (b = true ↔ trianglePoly.shoelace ≤ 0) :=
  ⟨by decide, claim_C6 trianglePoly (by decide)⟩

/-- **C5.** When `assert_ccw` reverses a proper polygon, every constraint tag
stays attached to its geometric edge: the old edge `k` (from vertex `k` to
vertex `k+1`) reappears as the edge at cyclic position `2n - 2 - k` of the
reversed polygon, joining the same two positions in the opposite direction,
and that edge carries the tag the old edge `k` carried. -/
theorem claim_C5 (P : Polygon) (k : Nat) (h3 : 3 ≤ P.pointsCount)
    (hk : k < P.pointsCount) (hsum : P.shoelace ≤ 0) :
    ∃ P', P.assertCcw = some (P', true) ∧
      P'.getEdgeConstraint (2 * (P.pointsCount : ℤ) - 2 - k)
        = P.getEdgeConstraint (k : ℤ) ∧
      P'.getPointPos (2 * (P.pointsCount : ℤ) - 2 - k) = P.getPointPos ((k : ℤ) + 1) ∧
      P'.getPointPos (2 * (P.pointsCount : ℤ) - 2 - k + 1) = P.getPointPos (k : ℤ) := by
  have hproper : P.isProper = true := by
    unfold Polygon.isProper
    rw [if_neg (by rw [P.pointsCount_eq] at h3; omega)]
  refine ⟨P.reverseWithRemap, ?_, ?_⟩
  · unfold Polygon.assertCcw
    rw [hproper]
    simp only [if_true]
    rw [if_pos hsum]
  have hcount : P.reverseWithRemap.pointsCount = P.pointsCount :=
    P.reverseWithRemap_pointsCount
  set n := P.pointsCount with hn
  have hcast1 : (2 * (n : ℤ) - 2 - k) = ((2 * n - 2 - k : ℕ) : ℤ) := by omega
  have hcast2 : (2 * (n : ℤ) - 2 - k + 1) = ((2 * n - 1 - k : ℕ) : ℤ) := by omega
  have hfix1 : P.reverseWithRemap.fixIndex (2 * (n : ℤ) - 2 - k)
      = if k = n - 1 then n - 1 else n - 2 - k := by
    rw [hcast1, Polygon.fixIndex_natCast _ _ (by omega), hcount]
    by_cases hk1 : k = n - 1
    · rw [if_pos hk1]
      rw [show 2 * n - 2 - k = n - 1 by omega]
      exact Nat.mod_eq_of_lt (by omega)
    · rw [if_neg hk1]
      rw [show 2 * n - 2 - k = n + (n - 2 - k) by omega, Nat.add_mod_left]
      exact Nat.mod_eq_of_lt (by omega)
  have hfix2 : P.reverseWithRemap.fixIndex (2 * (n : ℤ) - 2 - k + 1)
      = if k = n - 1 then 0 else n - 1 - k := by
    rw [hcast2, Polygon.fixIndex_natCast _ _ (by omega), hcount]
    by_cases hk1 : k = n - 1
    · rw [if_pos hk1]
      rw [show 2 * n - 1 - k = n by omega]
      exact Nat.mod_self n
    · rw [if_neg hk1]
      rw [show 2 * n - 1 - k = n + (n - 1 - k) by omega, Nat.add_mod_left]
      exact Nat.mod_eq_of_lt (by omega)
  have hfixk : P.fixIndex (k : ℤ) = k := P.fixIndex_coe k hk
  have hfixk1 : P.fixIndex ((k : ℤ) + 1) = (k + 1) % n := by
    rw [show ((k : ℤ) + 1) = ((k + 1 : ℕ) : ℤ) by omega,
      Polygon.fixIndex_natCast _ _ (by omega)]
  refine ⟨?_, ?_, ?_⟩
  · unfold Polygon.getEdgeConstraint
    rw [hfix1, hfixk]
    by_cases hk1 : k = n - 1
    · rw [if_pos hk1]
      rw [P.reverseWithRemap_getD (n - 1) (by omega)]
      rw [show (n - 1 + 1) % n = 0 by rw [show n - 1 + 1 = n by omega]; exact Nat.mod_self n]
      rw [show n - 1 - 0 = n - 1 by omega, hk1]
    · rw [if_neg hk1]
      rw [P.reverseWithRemap_getD (n - 2 - k) (by omega)]
      rw [show (n - 2 - k + 1) % n = n - 1 - k by
        rw [show n - 2 - k + 1 = n - 1 - k by omega]; exact Nat.mod_eq_of_lt (by omega)]
      rw [show n - 1 - (n - 1 - k) = k by omega]
  · unfold Polygon.getPointPos
    rw [hfix1, hfixk1]
    by_cases hk1 : k = n - 1
    · rw [if_pos hk1]
      rw [P.reverseWithRemap_getD (n - 1) (by omega)]
      rw [show (k + 1) % n = 0 by rw [hk1, show n - 1 + 1 = n by omega]; exact Nat.mod_self n]
      rw [show n - 1 - (n - 1) = 0 by omega]
    · rw [if_neg hk1]
      rw [P.reverseWithRemap_getD (n - 2 - k) (by omega)]
      rw [show (k + 1) % n = k + 1 from Nat.mod_eq_of_lt (by omega)]
      rw [show n - 1 - (n - 2 - k) = k + 1 by omega]
  · unfold Polygon.getPointPos
    rw [hfix2, hfixk]
    by_cases hk1 : k = n - 1
    · rw [if_pos hk1]
      rw [P.reverseWithRemap_getD 0 (by omega)]
      rw [show n - 1 - 0 = n - 1 by omega, hk1]
    · rw [if_neg hk1]
      rw [P.reverseWithRemap_getD (n - 1 - k) (by omega)]
      rw [show n - 1 - (n - 1 - k) = k by omega]

def constrainedTriangle : Polygon :=
  ⟨[⟨⟨0, 0⟩, false, EdgeConstraint.horizontal, ⟨0, 0⟩⟩,
    ⟨⟨10, 0⟩, false, EdgeConstraint.none, ⟨0, 0⟩⟩,
    ⟨⟨0, 10⟩, false, EdgeConstraint.vertical, ⟨0, 0⟩⟩]⟩

theorem claim_C5_witness :
    (3 ≤ constrainedTriangle.pointsCount ∧ 0 < constrainedTriangle.pointsCount ∧
      constrainedTriangle.shoelace ≤ 0) ∧
    ∃ P', constrainedTriangle.assertCcw = some (P', true) ∧
      P'.getEdgeConstraint (2 * (constrainedTriangle.pointsCount : ℤ) - 2 - 0)
        = constrainedTriangle.getEdgeConstraint (0 : ℤ) ∧
      P'.getPointPos (2 * (constrainedTriangle.pointsCount : ℤ) - 2 - 0)
        = constrainedTriangle.getPointPos ((0 : ℤ) + 1) ∧
      P'.getPointPos (2 * (constrainedTriangle.pointsCount : ℤ) - 2 - 0 + 1)
        = constrainedTriangle.getPointPos (0 : ℤ) :=
  ⟨⟨by decide, by decide, by with_unfolding_all decide⟩,
   claim_C5 constrainedTriangle 0 (by decide) (by decide) (by with_unfolding_all decide)⟩

/-! ## C7: atomicity of the constraint editor on failure -/

theorem Polygon.fixIndex_succ (P : Polygon) (id : ℤ) (h : 0 < P.pointsCount) :
    P.fixIndex (id + 1)
      = if P.fixIndex id = P.pointsCount - 1 then 0 else P.fixIndex id + 1 := by
  have hn : (0 : ℤ) < (P.pointsCount : ℤ) := by exact_mod_cast h
  have ha0 : 0 ≤ id % (P.pointsCount : ℤ) := Int.emod_nonneg id (by omega)
  have ha1 : id % (P.pointsCount : ℤ) < (P.pointsCount : ℤ) := Int.emod_lt_of_pos id hn
  have e1 : (id + 1) % (P.pointsCount : ℤ)
      = (id % (P.pointsCount : ℤ) + 1) % (P.pointsCount : ℤ) := by
    have hsplit : id + 1
        = (id % (P.pointsCount : ℤ) + 1)
          + (P.pointsCount : ℤ) * (id / (P.pointsCount : ℤ)) := by
      rw [Int.emod_def]
      ring
    rw [hsplit, Int.add_mul_emod_self_left]
  unfold Polygon.fixIndex
  by_cases hz : id % (P.pointsCount : ℤ) = (P.pointsCount : ℤ) - 1
  · rw [if_pos (by omega)]
    rw [e1, hz, show (P.pointsCount : ℤ) - 1 + 1 = (P.pointsCount : ℤ) by ring,
      Int.emod_self]
    rfl
  · rw [if_neg (by omega)]
    rw [e1, Int.emod_eq_of_lt (by omega) (by omega)]
    omega

theorem getD_set_point (l : List Point) (i m : Nat) (a : Point) (hm : m < l.length) :
    (l.set i a).getD m default = if i = m then a else l.getD m default := by
  have hm2 : m < (l.set i a).length := by simpa using hm
  rw [List.getD_eq_getElem _ _ hm2, List.getD_eq_getElem _ _ hm, List.getElem_set]

theorem list_ext_getD (l l2 : List Point) (hl : l.length = l2.length)
    (h : ∀ m, m < l2.length → l.getD m default = l2.getD m default) : l = l2 := by
  apply List.ext_getElem hl
  intro m hm hm2
  have hx := h m hm2
  rwa [List.getD_eq_getElem _ _ hm, List.getD_eq_getElem _ _ hm2] at hx

theorem Point.ext_fields (p q : Point) (h1 : p.pos = q.pos) (h2 : p.isSelected = q.isSelected)
    (h3 : p.edgeConstraint = q.edgeConstraint) (h4 : p.offsetVec = q.offsetVec) : p = q := by
  cases p
  cases q
  simp_all

theorem Polygon.getD_updatePointPos (P : Polygon) (v : Vec2) (j m : Nat)
    (hj : j < P.pointsCount) (hm : m < P.pointsCount) :
    (P.updatePointPos v (j : ℤ)).points.getD m default
      = if j = m then { P.points.getD m default with pos := v }
        else P.points.getD m default := by
  rw [Polygon.pointsCount_eq] at hm
  simp only [Polygon.updatePointPos]
  rw [P.fixIndex_coe j hj]
  rw [getD_set_point _ _ _ _ hm]
  by_cases hjm : j = m
  · subst hjm
    rw [if_pos rfl]
  · rw [if_neg hjm, if_neg hjm]

theorem Polygon.getD_setEdgeContsraint (P : Polygon) (c : EdgeConstraint) (j m : Nat)
    (hj : j < P.pointsCount) (hm : m < P.pointsCount) :
    (P.setEdgeContsraint (j : ℤ) c).points.getD m default
      = if j = m then { P.points.getD m default with edgeConstraint := c }
        else P.points.getD m default := by
  rw [Polygon.pointsCount_eq] at hm
  simp only [Polygon.setEdgeContsraint]
  rw [P.fixIndex_coe j hj]
  rw [getD_set_point _ _ _ _ hm]
  by_cases hjm : j = m
  · subst hjm
    rw [if_pos rfl]
  · rw [if_neg hjm, if_neg hjm]

@[simp] theorem Polygon.pointsCount_applyConstraintSnap (P : Polygon) (id : ℤ)
    (new : EdgeConstraint) : (P.applyConstraintSnap id new).pointsCount = P.pointsCount := by
  cases new <;> simp [Polygon.applyConstraintSnap]

theorem Polygon.applyConstraintSnap_getD_other (P : Polygon) (id : ℤ) (new : EdgeConstraint)
    (m : Nat) (hm : m < P.pointsCount)
    (h0 : P.fixIndex id ≠ m) (h1 : P.fixIndex (id + 1) ≠ m) :
    (P.applyConstraintSnap id new).points.getD m default = P.points.getD m default := by
  have hc : 0 < P.pointsCount := by omega
  have hfi0 : P.fixIndex id < P.pointsCount := P.fixIndex_lt id hc
  have hfi1 : P.fixIndex (id + 1) < P.pointsCount := P.fixIndex_lt (id + 1) hc
  cases new
  case none =>
    simp only [Polygon.applyConstraintSnap]
    rw [Polygon.getD_setEdgeContsraint _ _ _ _ hfi0 hm, if_neg h0]
  case horizontal =>
    simp only [Polygon.applyConstraintSnap]
    rw [Polygon.getD_updatePointPos _ _ _ _ (by simp [hfi1]) (by simp [hm]), if_neg h1,
      Polygon.getD_updatePointPos _ _ _ _ (by simp [hfi0]) (by simp [hm]), if_neg h0,
      Polygon.getD_setEdgeContsraint _ _ _ _ hfi0 hm, if_neg h0]
  case vertical =>
    simp only [Polygon.applyConstraintSnap]
    rw [Polygon.getD_updatePointPos _ _ _ _ (by simp [hfi1]) (by simp [hm]), if_neg h1,
      Polygon.getD_updatePointPos _ _ _ _ (by simp [hfi0]) (by simp [hm]), if_neg h0,
      Polygon.getD_setEdgeContsraint _ _ _ _ hfi0 hm, if_neg h0]

theorem Polygon.applyConstraintSnap_getD_self (P : Polygon) (id : ℤ) (new : EdgeConstraint)
    (hc : 0 < P.pointsCount) (hne : P.fixIndex (id + 1) ≠ P.fixIndex id) :
    ((P.applyConstraintSnap id new).points.getD (P.fixIndex id) default).isSelected
        = (P.points.getD (P.fixIndex id) default).isSelected ∧
    ((P.applyConstraintSnap id new).points.getD (P.fixIndex id) default).offsetVec
        = (P.points.getD (P.fixIndex id) default).offsetVec := by
  have hfi0 : P.fixIndex id < P.pointsCount := P.fixIndex_lt id hc
  have hfi1 : P.fixIndex (id + 1) < P.pointsCount := P.fixIndex_lt (id + 1) hc
  cases new
  case none =>
    simp only [Polygon.applyConstraintSnap]
    rw [Polygon.getD_setEdgeContsraint _ _ _ _ hfi0 hfi0, if_pos rfl]
    exact ⟨rfl, rfl⟩
  case horizontal =>
    simp only [Polygon.applyConstraintSnap]
    rw [Polygon.getD_updatePointPos _ _ _ _ (by simp [hfi1]) (by simp [hfi0]), if_neg hne,
      Polygon.getD_updatePointPos _ _ _ _ (by simp [hfi0]) (by simp [hfi0]), if_pos rfl,
      Polygon.getD_setEdgeContsraint _ _ _ _ hfi0 hfi0, if_pos rfl]
    exact ⟨rfl, rfl⟩
  case vertical =>
    simp only [Polygon.applyConstraintSnap]
    rw [Polygon.getD_updatePointPos _ _ _ _ (by simp [hfi1]) (by simp [hfi0]), if_neg hne,
      Polygon.getD_updatePointPos _ _ _ _ (by simp [hfi0]) (by simp [hfi0]), if_pos rfl,
      Polygon.getD_setEdgeContsraint _ _ _ _ hfi0 hfi0, if_pos rfl]
    exact ⟨rfl, rfl⟩

theorem Polygon.applyConstraintSnap_getD_next (P : Polygon) (id : ℤ) (new : EdgeConstraint)
    (hc : 0 < P.pointsCount) (hne : P.fixIndex (id + 1) ≠ P.fixIndex id) :
    ((P.applyConstraintSnap id new).points.getD (P.fixIndex (id + 1)) default).isSelected
        = (P.points.getD (P.fixIndex (id + 1)) default).isSelected ∧
    ((P.applyConstraintSnap id new).points.getD (P.fixIndex (id + 1)) default).offsetVec
        = (P.points.getD (P.fixIndex (id + 1)) default).offsetVec ∧
    ((P.applyConstraintSnap id new).points.getD (P.fixIndex (id + 1)) default).edgeConstraint
        = (P.points.getD (P.fixIndex (id + 1)) default).edgeConstraint := by
  have hfi0 : P.fixIndex id < P.pointsCount := P.fixIndex_lt id hc
  have hfi1 : P.fixIndex (id + 1) < P.pointsCount := P.fixIndex_lt (id + 1) hc
  have hne' : ¬P.fixIndex id = P.fixIndex (id + 1) := fun hh => hne hh.symm
  cases new
  case none =>
    simp only [Polygon.applyConstraintSnap]
    rw [Polygon.getD_setEdgeContsraint _ _ _ _ hfi0 hfi1, if_neg hne']
    exact ⟨rfl, rfl, rfl⟩
  case horizontal =>
    simp only [Polygon.applyConstraintSnap]
    rw [Polygon.getD_updatePointPos _ _ _ _ (by simp [hfi1]) (by simp [hfi1]), if_pos rfl,
      Polygon.getD_updatePointPos _ _ _ _ (by simp [hfi0]) (by simp [hfi1]), if_neg hne',
      Polygon.getD_setEdgeContsraint _ _ _ _ hfi0 hfi1, if_neg hne']
    exact ⟨rfl, rfl, rfl⟩
  case vertical =>
    simp only [Polygon.applyConstraintSnap]
    rw [Polygon.getD_updatePointPos _ _ _ _ (by simp [hfi1]) (by simp [hfi1]), if_pos rfl,
      Polygon.getD_updatePointPos _ _ _ _ (by simp [hfi0]) (by simp [hfi1]), if_neg hne',
      Polygon.getD_setEdgeContsraint _ _ _ _ hfi0 hfi1, if_neg hne']
    exact ⟨rfl, rfl, rfl⟩

theorem Polygon.constraintSnap_rollback (P : Polygon) (id : ℤ) (new : EdgeConstraint)
    (h3 : 3 ≤ P.pointsCount) :
    ((((P.applyConstraintSnap id new).updatePointPos
          (P.getPointPos (P.fixIndex id : ℤ)) (P.fixIndex id : ℤ)).updatePointPos
        (P.getPointPos (P.fixIndex (id + 1) : ℤ)) (P.fixIndex (id + 1) : ℤ)).setEdgeContsraint
        (P.fixIndex id : ℤ) (P.getEdgeConstraint (P.fixIndex id : ℤ))).points
      = P.points := by
  have hc : 0 < P.pointsCount := by omega
  have hfi0 : P.fixIndex id < P.pointsCount := P.fixIndex_lt id hc
  have hfi1 : P.fixIndex (id + 1) < P.pointsCount := P.fixIndex_lt (id + 1) hc
  have hne : P.fixIndex (id + 1) ≠ P.fixIndex id := by
    rw [P.fixIndex_succ id hc]
    by_cases hz : P.fixIndex id = P.pointsCount - 1
    · rw [if_pos hz]
      omega
    · rw [if_neg hz]
      omega
  have hp0 : P.getPointPos (P.fixIndex id : ℤ)
      = (P.points.getD (P.fixIndex id) default).pos := by
    unfold Polygon.getPointPos
    rw [P.fixIndex_coe _ hfi0]
  have hp1 : P.getPointPos (P.fixIndex (id + 1) : ℤ)
      = (P.points.getD (P.fixIndex (id + 1)) default).pos := by
    unfold Polygon.getPointPos
    rw [P.fixIndex_coe _ hfi1]
  have hold : P.getEdgeConstraint (P.fixIndex id : ℤ)
      = (P.points.getD (P.fixIndex id) default).edgeConstraint := by
    unfold Polygon.getEdgeConstraint
    rw [P.fixIndex_coe _ hfi0]
  have hslen : (P.applyConstraintSnap id new).points.length = P.points.length :=
    P.pointsCount_applyConstraintSnap id new
  apply list_ext_getD
  · simp [Polygon.setEdgeContsraint, Polygon.updatePointPos, hslen]
  intro m hm
  have hmc : m < P.pointsCount := by
    rw [Polygon.pointsCount_eq]
    exact hm
  rw [Polygon.getD_setEdgeContsraint _ _ _ _ (by simp [hfi0]) (by simp [hmc])]
  by_cases hm0 : P.fixIndex id = m
  · rw [if_pos hm0]
    rw [Polygon.getD_updatePointPos _ _ _ _ (by simp [hfi1]) (by simp [hmc]),
      if_neg (show ¬P.fixIndex (id + 1) = m by rw [← hm0]; exact hne),
      Polygon.getD_updatePointPos _ _ _ _ (by simp [hfi0]) (by simp [hmc]),
      if_pos hm0]
    subst hm0
    obtain ⟨hsel, hov⟩ := P.applyConstraintSnap_getD_self id new hc hne
    apply Point.ext_fields
    · exact hp0
    · exact hsel
    · exact hold
    · exact hov
  · rw [if_neg hm0]
    rw [Polygon.getD_updatePointPos _ _ _ _ (by simp [hfi1]) (by simp [hmc])]
    by_cases hm1 : P.fixIndex (id + 1) = m
    · rw [if_pos hm1]
      rw [Polygon.getD_updatePointPos _ _ _ _ (by simp [hfi0]) (by simp [hmc]),
        if_neg hm0]
      subst hm1
      obtain ⟨hsel1, hov1, hec1⟩ := P.applyConstraintSnap_getD_next id new hc hne
      apply Point.ext_fields
      · exact hp1
      · exact hsel1
      · exact hec1
      · exact hov1
    · rw [if_neg hm1]
      rw [Polygon.getD_updatePointPos _ _ _ _ (by simp [hfi0]) (by simp [hmc]),
        if_neg hm0]
      exact P.applyConstraintSnap_getD_other id new m hmc hm0 hm1

/-- **C7.** The constraint editor is atomic on failure: when the requested
non-`None` axis equals the constraint already carried by either neighbouring
edge, or when applying the endpoint snap would make the polygon
self-crossing, `draw_line_constraints_egui` leaves every vertex position and
every edge-constraint tag exactly as it was before the call (the conflict
path returns before mutating; the self-crossing path rolls back both moved
endpoints and the written tag to their saved values). -/
theorem claim_C7 (o : PolygonObject) (id : ℤ) (new : EdgeConstraint) (innerFuel : Nat)
    (h3 : 3 ≤ o.polygon.pointsCount)
    (hfail : (new ≠ EdgeConstraint.none ∧
        (new = o.polygon.getEdgeConstraint ((o.polygon.fixIndex id : ℤ) - 1) ∨
         new = o.polygon.getEdgeConstraint ((o.polygon.fixIndex (id + 1) : ℤ)))) ∨
      (o.polygon.applyConstraintSnap id new).isSelfCrossing = true) :
    ((o.drawLineConstraintsEgui id new innerFuel).polygon.points.map fun p => p.pos)
        = (o.polygon.points.map fun p => p.pos) ∧
    ((o.drawLineConstraintsEgui id new innerFuel).polygon.points.map fun p => p.edgeConstraint)
        = (o.polygon.points.map fun p => p.edgeConstraint) := by
  by_cases hold2 : o.polygon.getEdgeConstraint (o.polygon.fixIndex id : ℤ) = new
  · have heq : o.drawLineConstraintsEgui id new innerFuel = o := by
      simp only [PolygonObject.drawLineConstraintsEgui]
      rw [if_pos hold2]
    rw [heq]
    exact ⟨rfl, rfl⟩
  · by_cases hconf : new ≠ EdgeConstraint.none ∧
        (new = o.polygon.getEdgeConstraint ((o.polygon.fixIndex id : ℤ) - 1) ∨
         new = o.polygon.getEdgeConstraint ((o.polygon.fixIndex (id + 1) : ℤ)))
    · have heq : o.drawLineConstraintsEgui id new innerFuel = o := by
        simp only [PolygonObject.drawLineConstraintsEgui]
        rw [if_neg hold2, if_pos hconf]
      rw [heq]
      exact ⟨rfl, rfl⟩
    · have hsc : (o.polygon.applyConstraintSnap id new).isSelfCrossing = true := by
        rcases hfail with h1 | h2
        · exact absurd h1 hconf
        · exact h2
      have heqp : (o.drawLineConstraintsEgui id new innerFuel).polygon.points
          = o.polygon.points := by
        simp only [PolygonObject.drawLineConstraintsEgui]
        rw [if_neg hold2, if_neg hconf, if_pos hsc]
        exact o.polygon.constraintSnap_rollback id new h3
      exact ⟨by rw [heqp], by rw [heqp]⟩

theorem claim_C7_witness :
    (3 ≤ quadObj.polygon.pointsCount ∧
      (EdgeConstraint.horizontal ≠ EdgeConstraint.none ∧
        (EdgeConstraint.horizontal
            = quadObj.polygon.getEdgeConstraint ((quadObj.polygon.fixIndex 0 : ℤ) - 1) ∨
         EdgeConstraint.horizontal
            = quadObj.polygon.getEdgeConstraint ((quadObj.polygon.fixIndex (0 + 1) : ℤ))))) ∧
    ((quadObj.drawLineConstraintsEgui 0 EdgeConstraint.horizontal 0).polygon.points.map
        fun p => p.pos) = (quadObj.polygon.points.map fun p => p.pos) ∧
    ((quadObj.drawLineConstraintsEgui 0 EdgeConstraint.horizontal 0).polygon.points.map
        fun p => p.edgeConstraint)
      = (quadObj.polygon.points.map fun p => p.edgeConstraint) :=
  ⟨⟨by decide, by decide⟩,
   claim_C7 quadObj 0 EdgeConstraint.horizontal 0 (by decide) (Or.inl (by decide))⟩

end PolygonEditor
